import Mathlib

/-! Verification of the areum page-rendering core against its specification.

The definitions below are a shallow embedding of src/ts/jsx-runtime.ts:
the tree builder (the factory `jsx`, the spec's `construct`), the resolver
(`render`, `renderChildren`, `applyScope` — the spec's `resolve`) and the
hydration walker (`runScript`).  JavaScript objects are modelled as
association lists accessed through `lookupProp` (first match wins, which is
observationally the same as a JS object with unique keys); the in-place
mutation that the resolver performs on the builder tree is made explicit by
returning the updated tree alongside the result; the native `randString(8)`
scope allocator is modelled as a supply of distinct opaque tokens indexed by
a counter threaded through the resolution pass. -/

namespace Areum

/-- Reference: the run-time value of an element's `element` field
(`JSX.ElementType` in the source): a tag-name string, or a function value
(`typeof element.element === "function"`), which is either the `Fragment`
function or a user component; `invalid` models a value that is neither a
string nor callable, which an untyped JS caller may pass. -/
inductive Ref where
  | tag (t : String)
  | fragment
  | comp (fid : Nat)
  | invalid
deriving DecidableEq

/-- isFunctionRef models the `typeof element.element === "function"` probe. -/
def isFunctionRef : Ref → Bool
  | .tag _ => false
  | .fragment => true
  | .comp _ => true
  | .invalid => false

mutual
/-- PVal is a value stored under a key of a props object: a string, or a
children tree (the `children` key of the props bag handed to the factory). -/
inductive PVal where
  | str (s : String)
  | child (c : Children)

/-- Children is `JSX.Children = string | Element | Children[]`; `absent`
models JS `undefined`/`null` (`children?` is optional in the source). -/
inductive Children where
  | absent
  | str (s : String)
  | elem (e : Element)
  | list (cs : List Children)

/-- Element is `JSX.Element` (the spec's BuilderNode): an element reference,
a props object (absent for hand-made objects, always present on
factory-built elements) and children. -/
inductive Element where
  | mk (element : Ref) (props : Option (List (String × PVal))) (children : Children)
end

/-- Props models a JS props object as an association list; lookups take the
first matching key, so a later duplicate is unobservable, as in JS. -/
abbrev Props := List (String × PVal)

/-- lookupProp is property access `p[k]` on a JS object. -/
def lookupProp : Props → String → Option PVal
  | [], _ => none
  | (k', v) :: rest, k => if k' = k then some v else lookupProp rest k

/-- setKey is property assignment `p[k] = v`: it overwrites the existing key
in place or appends a new one. -/
def setKey : Props → String → PVal → Props
  | [], k, v => [(k, v)]
  | (k', v') :: rest, k, v =>
      if k' = k then (k, v) :: rest else (k', v') :: setKey rest k v

/-- eraseKey models removing a key, as rest-destructuring `{k, ...rest}` does. -/
def eraseKey : Props → String → Props
  | [], _ => []
  | (k', v) :: rest, k =>
      if k' = k then eraseKey rest k else (k', v) :: eraseKey rest k

/-- childTruthy is JS truthiness of a Children value: `undefined`/`null` and
the empty string are falsy, every object (element or array, even empty) and
nonempty string is truthy. -/
def childTruthy : Children → Bool
  | .absent => false
  | .str s => s ≠ ""
  | .elem _ => true
  | .list _ => true

/-- pvalTruthy is JS truthiness of a stored property value. -/
def pvalTruthy : PVal → Bool
  | .str s => s ≠ ""
  | .child c => childTruthy c

/-- scopeTruthy is the `element.props.__scope` truthiness test of
`applyScope`. -/
def scopeTruthy (p : Props) : Bool :=
  match lookupProp p "__scope" with
  | some v => pvalTruthy v
  | none => false

mutual
/-- applyScopeChildren walks a children value, stamping the scope on every
element in it (strings are skipped, arrays are traversed element-wise,
falsy children are left alone), as in the source. -/
def applyScopeChildren : Children → String → Children
  | .absent, _ => .absent
  | .str s, _ => .str s
  | .elem e, sc => .elem (applyScope e sc)
  | .list cs, sc => .list (applyScopeList cs sc)

/-- applyScopeList is the `children.forEach(...)` loop of
`applyScopeChildren`. -/
def applyScopeList : List Children → String → List Children
  | [], _ => []
  | c :: cs, sc => applyScopeChildren c sc :: applyScopeList cs sc

/-- applyScope writes the scope into the element's props when no truthy
`__scope` is already present (creating the props object when the element has
none), then recurses into the children — the source's `applyScope`. -/
def applyScope : Element → String → Element
  | .mk r props ch, sc =>
      let props' : Props :=
        match props with
        | some p => if scopeTruthy p then p else setKey p "__scope" (.str sc)
        | none => [("__scope", .str sc)]
      .mk r (some props') (applyScopeChildren ch sc)
end

mutual
/-- Node is a resolved node.  `intrinsic` keeps the raw reference that was in
the `element` field as its tag (`none` when render was handed a value with no
`element` field at all); `virtual` carries the resolved style text, the
captured behavior callback (an opaque id) and the scope. -/
inductive Node where
  | intrinsic (tag : Option Ref) (children : RChildren) (props : List (String × PVal))
      (scope : PVal)
  | virtual (children : RChildren) (props : List (String × PVal)) (style : Option String)
      (script : Option Nat) (scope : PVal)

/-- RChildren is the resolved children type of the source
(`Node | string | Children[]`, plus `undefined`). -/
inductive RChildren where
  | absent
  | str (s : String)
  | node (n : Node)
  | list (cs : List RChildren)
end

/-- rtruthy is JS truthiness of a resolved child, used by the
`.filter((x) => x)` in `renderChildren`: `undefined` and `""` are falsy,
nodes and arrays (even empty) are truthy. -/
def rtruthy : RChildren → Bool
  | .absent => false
  | .str s => s ≠ ""
  | .node _ => true
  | .list _ => true

/-- StyleV is the `style` property of a functional component: a literal
string or a function of the props. -/
inductive StyleV where
  | lit (s : String)
  | fn (f : Props → String)

/-- Env interprets component function values: `body fid` is the function
itself (its JS argument `{...props, children}` is passed as the two Lean
arguments), `style fid` and `script fid` are the `style` and `script`
properties carried on the function object.  The `Fragment` function carries
neither. -/
structure Env where
  body : Nat → Props → Children → Element
  style : Nat → Option StyleV
  script : Nat → Option Nat

/-- freshTok is the modelled `randString(8)` scope allocator: the n-th token
drawn from the supply.  The source draws a fresh random string; the model
draws from a deterministic supply of distinct opaque tokens. -/
def freshTok (n : Nat) : String :=
  ⟨'#' :: 's' :: (Nat.repr n).data⟩

/-- scopeOf is `node_.props.__scope` after line 119 built the props as
`{ __scope: "", ...element.props }`: the element's own value if present,
else the empty string. -/
def scopeOf (p : Props) : PVal :=
  (lookupProp p "__scope").getD (.str "")

/-- withDefaultScope models `{ __scope: "", ...element.props }`: the result
has a `__scope` key, whose value is the element's own when present and `""`
otherwise, with every other key unchanged. -/
def withDefaultScope (p : Props) : Props :=
  match lookupProp p "__scope" with
  | some _ => p
  | none => ("__scope", .str "") :: p

mutual
/-- render is the Resolver (`render` in the source), with the token supply
`gen` threaded through and the mutation of the input made explicit: the
result is `none` when the modelling fuel runs out, otherwise
`some (resolved, nextGen, inputAfter)` where `resolved` is the source's
`Node | undefined` return value and `inputAfter` is the input tree after the
scope stamping render performed on it in place.  (Mutations the source
applies through aliases that a component function captured from
`element.children` into its returned subtree are not tracked on
`inputAfter`; the resolved result does not depend on them.)  The branches
mirror the source: a falsy input or an empty array resolves to `undefined`;
a function reference allocates a token (also for `Fragment`, which then
discards it), a non-`Fragment` function stamps the element and its
descendants (`applyScope`), force-writes its own props' `__scope`, invokes
the body, stamps and resolves the returned subtree, and attaches style and
script from the function object; every other reference is treated as an
intrinsic tag.  A truthy non-element value (a nonempty string or a nonempty
array handed directly to render) takes the intrinsic branch with no
`element`, `props` or `children` fields, yielding a tagless childless node
with scope `""`. -/
def render (env : Env) : Nat → Nat → Children → Option (Option Node × Nat × Children)
  | 0, _, _ => none
  | _ + 1, gen, .absent => some (none, gen, .absent)
  | _ + 1, gen, .str s =>
      if s = "" then some (none, gen, .str s)
      else some (some (.intrinsic none .absent [("__scope", .str "")] (.str "")), gen, .str s)
  | _ + 1, gen, .list [] => some (none, gen, .list [])
  | _ + 1, gen, .list (c0 :: cs) =>
      some (some (.intrinsic none .absent [("__scope", .str "")] (.str "")), gen,
        .list (c0 :: cs))
  | fuel + 1, gen, .elem (.mk r props ch) =>
      match r with
      | .comp fid =>
          let newScope := freshTok gen
          match applyScope (.mk (Ref.comp fid) props ch) newScope with
          | .mk _ props1 ch1 =>
            let p1 := setKey (props1.getD []) "__scope" (.str newScope)
            let inner := env.body fid p1 ch1
            let inner1 := applyScope inner newScope
            match render env fuel (gen + 1) (.elem inner1) with
            | none => none
            | some (res, gen2, _) =>
              let childOut : RChildren :=
                match res with
                | some n => .node n
                | none => .absent
              let style : Option String :=
                match env.style fid with
                | some (.fn sf) => some (sf p1)
                | some (.lit s) => some s
                | none => none
              some (some (.virtual childOut (withDefaultScope p1) style (env.script fid)
                      (scopeOf p1)),
                gen2, .elem (.mk (Ref.comp fid) (some p1) ch1))
      | .fragment =>
          match renderChildren env fuel (gen + 1) ch with
          | none => none
          | some (chOut, gen2, chAfter) =>
            some (some (.virtual chOut (withDefaultScope (props.getD [])) none none
                    (scopeOf (props.getD []))),
              gen2, .elem (.mk Ref.fragment props chAfter))
      | .tag t =>
          match renderChildren env fuel gen ch with
          | none => none
          | some (chOut, gen2, chAfter) =>
            some (some (.intrinsic (some (Ref.tag t)) chOut (withDefaultScope (props.getD []))
                    (scopeOf (props.getD []))),
              gen2, .elem (.mk (Ref.tag t) props chAfter))
      | .invalid =>
          match renderChildren env fuel gen ch with
          | none => none
          | some (chOut, gen2, chAfter) =>
            some (some (.intrinsic (some Ref.invalid) chOut (withDefaultScope (props.getD []))
                    (scopeOf (props.getD []))),
              gen2, .elem (.mk Ref.invalid props chAfter))

/-- renderChildren resolves a children value (`renderChildren` in the
source): strings pass through, arrays are resolved element-wise and the
falsy results dropped, single elements go to render, and a falsy input comes
back as `undefined`. -/
def renderChildren (env : Env) : Nat → Nat → Children → Option (RChildren × Nat × Children)
  | 0, _, _ => none
  | _ + 1, gen, .str s => some (.str s, gen, .str s)
  | fuel + 1, gen, .list cs =>
      match renderChildrenList env fuel gen cs with
      | none => none
      | some (outs, gen2, csAfter) => some (.list (outs.filter rtruthy), gen2, .list csAfter)
  | fuel + 1, gen, .elem e =>
      match render env fuel gen (.elem e) with
      | none => none
      | some (res, gen2, eAfter) =>
        some ((match res with | some n => .node n | none => .absent), gen2, eAfter)
  | _ + 1, gen, .absent => some (.absent, gen, .absent)

/-- renderChildrenList is the `children.map((child) => renderChildren(child))`
loop, threading the token supply left to right as the source's evaluation
order does. -/
def renderChildrenList (env : Env) :
    Nat → Nat → List Children → Option (List RChildren × Nat × List Children)
  | 0, _, _ => none
  | _ + 1, gen, [] => some ([], gen, [])
  | fuel + 1, gen, c :: cs =>
      match renderChildren env fuel gen c with
      | none => none
      | some (r, gen1, cAfter) =>
        match renderChildrenList env fuel gen1 cs with
        | none => none
        | some (rs, gen2, csAfter) => some (r :: rs, gen2, cAfter :: csAfter)
end

/-- childrenVal reads the extracted `children` value of a props bag as a
Children: a stored string is a legal child, anything absent is `undefined`. -/
def childrenVal : Option PVal → Children
  | none => .absent
  | some (.str s) => .str s
  | some (.child c) => c

/-- jsx is the factory (the spec's `construct`): it pulls the `children` key
out of the props bag and wraps the reference, the remaining props and the
children into a builder element, with no validation and no other rewriting
of the props. -/
def jsx (element : Ref) (props : Props) : Element :=
  .mk element (some (eraseKey props "children")) (childrenVal (lookupProp props "children"))

mutual
/-- runScript is the Hydration Walker: it invokes the behavior of a virtual
node (when present) before walking its children — array children entry-wise,
a single node child directly, strings and absent children not at all.  The
source consults no execution context: the traversal is the same wherever it
runs.  The returned list is the invocation order of the behavior ids. -/
def runScript : Node → List Nat
  | .intrinsic _ ch _ _ => runScriptKids ch
  | .virtual ch _ _ scr _ =>
      (match scr with | some sid => [sid] | none => []) ++ runScriptKids ch

/-- runScriptKids dispatches on the `children` field as the source does. -/
def runScriptKids : RChildren → List Nat
  | .absent => []
  | .str _ => []
  | .node n => runScript n
  | .list cs => runScriptArr cs

/-- runScriptArr is the `for (const child of node.children)` loop. -/
def runScriptArr : List RChildren → List Nat
  | [] => []
  | c :: cs => runScriptEntry c ++ runScriptArr cs

/-- runScriptEntry is `runScript(child)` on one array entry: only a node
entry has a `kind`, a `script` or a `children` field, so a string or nested
array entry contributes nothing (and a falsy entry never occurs in resolved
children, which are filtered). -/
def runScriptEntry : RChildren → List Nat
  | .node n => runScript n
  | .absent => []
  | .str _ => []
  | .list _ => []
end

/-! Specification-side predicates.  These state the spec's scope invariant
over the embedding: input trees whose props carry a given scope stamp, and
output trees whose every node's scope is the inherited token except where a
component boundary allocated its own. -/

/-- scopeEntryIs compares the `__scope` entry of a props object against an
optional expected token. -/
def scopeEntryIs (op : Option PVal) (os : Option String) : Bool :=
  match op, os with
  | none, none => true
  | some (.str s), some t => s == t
  | _, _ => false

mutual
/-- stampedElem holds when every props object in the builder tree carries
exactly the given scope stamp: no `__scope` key at all for `none` (a tree as
authored, before any propagation), or `__scope` equal to the given token
everywhere (a tree after `applyScope` stamped it). -/
def stampedElem (os : Option String) : Element → Bool
  | .mk _ props ch =>
      scopeEntryIs (lookupProp (props.getD []) "__scope") os && stampedKids os ch

/-- stampedKids extends stampedElem over a children value. -/
def stampedKids (os : Option String) : Children → Bool
  | .absent => true
  | .str _ => true
  | .elem e => stampedElem os e
  | .list cs => stampedList os cs

/-- stampedList extends stampedElem over a children array. -/
def stampedList (os : Option String) : List Children → Bool
  | [] => true
  | c :: cs => stampedKids os c && stampedList os cs
end

mutual
/-- nodeInheritP states the spec's scope invariant on one resolved node whose
inherited token is `inh`: an intrinsic node carries exactly the inherited
token, both as its `scope` and in its props, and its subtree inherits the
same; a virtual node carries some token that is either the inherited one (a
Fragment inherits) or one drawn from the allocator supply (a component
boundary allocates its own), and its subtree inherits that token. -/
def nodeInheritP (inh : String) : Node → Prop
  | .intrinsic _ ch props sc =>
      sc = .str inh ∧ lookupProp props "__scope" = some (.str inh) ∧ kidsInheritP inh ch
  | .virtual ch props _ _ sc =>
      ∃ t, sc = .str t ∧ (t = inh ∨ ∃ m, t = freshTok m) ∧
        lookupProp props "__scope" = some (.str t) ∧ kidsInheritP t ch

/-- kidsInheritP extends nodeInheritP over resolved children. -/
def kidsInheritP (inh : String) : RChildren → Prop
  | .absent => True
  | .str _ => True
  | .node n => nodeInheritP inh n
  | .list cs => listInheritP inh cs

/-- listInheritP extends nodeInheritP over a resolved children array. -/
def listInheritP (inh : String) : List RChildren → Prop
  | [] => True
  | c :: cs => kidsInheritP inh c ∧ listInheritP inh cs
end

/-- optInheritP lifts nodeInheritP over the `Node | undefined` result of
render. -/
def optInheritP (inh : String) : Option Node → Prop
  | none => True
  | some n => nodeInheritP inh n

/-- CleanEnv says the component functions of the environment synthesize
scope-free subtrees: the trees they return never carry the engine-internal
`__scope` key, which authored JSX components cannot set (it is a reserved
key).  In particular they do not re-embed children that were already stamped
by an enclosing boundary. -/
def CleanEnv (env : Env) : Prop :=
  ∀ fid p cs, stampedElem none (env.body fid p cs) = true

/-- OsOK restricts a stamp to the values the resolution pass produces: no
stamp at all, or a truthy (nonempty) token. -/
def OsOK : Option String → Prop
  | none => True
  | some s => s ≠ ""

theorem lookupProp_setKey_self (p : Props) (k : String) (v : PVal) :
    lookupProp (setKey p k v) k = some v := by
  induction p with
  | nil => simp [setKey, lookupProp]
  | cons kv rest ih =>
      by_cases h : kv.1 = k
      · simp [setKey, h, lookupProp]
      · simp [setKey, h, lookupProp, ih]

theorem lookupProp_setKey_other (p : Props) (k k' : String) (v : PVal) (h : k' ≠ k) :
    lookupProp (setKey p k v) k' = lookupProp p k' := by
  have hne : ¬ k = k' := fun hh => h hh.symm
  induction p with
  | nil => simp [setKey, lookupProp, hne]
  | cons kv rest ih =>
      by_cases hk : kv.1 = k
      · simp [setKey, hk, lookupProp, hne]
      · simp only [setKey, hk, if_false, lookupProp]
        by_cases hk' : kv.1 = k'
        · simp [hk']
        · simp [hk', ih]

theorem freshTok_ne_empty (n : Nat) : freshTok n ≠ "" := by
  intro h
  have : ('#' :: 's' :: (Nat.repr n).data) = ([] : List Char) := congrArg String.data h
  simp at this

theorem scopeTruthy_of_stamp_none (p : Props)
    (h : scopeEntryIs (lookupProp p "__scope") none = true) :
    scopeTruthy p = false := by
  unfold scopeTruthy
  cases hl : lookupProp p "__scope" with
  | none => rfl
  | some v => rw [hl] at h; simp [scopeEntryIs] at h

theorem scopeTruthy_of_stamp_some (p : Props) (s : String) (hs : s ≠ "")
    (h : scopeEntryIs (lookupProp p "__scope") (some s) = true) :
    scopeTruthy p = true := by
  unfold scopeTruthy
  cases hl : lookupProp p "__scope" with
  | none => rw [hl] at h; simp [scopeEntryIs] at h
  | some v =>
      rw [hl] at h
      cases v with
      | str t =>
          simp [scopeEntryIs] at h
          subst h
          simp [pvalTruthy, hs]
      | child c => simp [scopeEntryIs] at h

theorem scopeEntryIs_none_iff (op : Option PVal) :
    scopeEntryIs op none = true ↔ op = none := by
  cases op with
  | none => simp [scopeEntryIs]
  | some v => cases v <;> simp [scopeEntryIs]

theorem scopeEntryIs_some_iff (op : Option PVal) (s : String) :
    scopeEntryIs op (some s) = true ↔ op = some (.str s) := by
  cases op with
  | none => simp [scopeEntryIs]
  | some v =>
      cases v with
      | str t => simp [scopeEntryIs]
      | child c => simp [scopeEntryIs]

mutual
/-- applyScope on a tree authored without any scope stamps every props with
the given (truthy) token. -/
theorem applyScope_stamp (τ : String) :
    ∀ e : Element, stampedElem none e = true →
      stampedElem (some τ) (applyScope e τ) = true
  | .mk r props ch, h => by
      unfold stampedElem at h
      rw [Bool.and_eq_true] at h
      obtain ⟨h1, h2⟩ := h
      rw [scopeEntryIs_none_iff] at h1
      unfold applyScope stampedElem
      rw [Bool.and_eq_true]
      constructor
      · cases props with
        | none =>
            simp only [Option.getD]
            simp [lookupProp, scopeEntryIs]
        | some p =>
            simp only [Option.getD] at h1 ⊢
            have hf : scopeTruthy p = false := by unfold scopeTruthy; rw [h1]
            simp only [hf, Bool.false_eq_true, if_false]
            rw [scopeEntryIs_some_iff, lookupProp_setKey_self]
      · exact applyScopeChildren_stamp τ ch h2

theorem applyScopeChildren_stamp (τ : String) :
    ∀ c : Children, stampedKids none c = true →
      stampedKids (some τ) (applyScopeChildren c τ) = true
  | .absent, _ => by simp [applyScopeChildren, stampedKids]
  | .str s, _ => by simp [applyScopeChildren, stampedKids]
  | .elem e, h => by
      unfold stampedKids at h
      unfold applyScopeChildren stampedKids
      exact applyScope_stamp τ e h
  | .list cs, h => by
      unfold stampedKids at h
      unfold applyScopeChildren stampedKids
      exact applyScopeList_stamp τ cs h

theorem applyScopeList_stamp (τ : String) :
    ∀ cs : List Children, stampedList none cs = true →
      stampedList (some τ) (applyScopeList cs τ) = true
  | [], _ => by simp [applyScopeList, stampedList]
  | c :: cs, h => by
      unfold stampedList at h
      rw [Bool.and_eq_true] at h
      unfold applyScopeList stampedList
      rw [Bool.and_eq_true]
      exact ⟨applyScopeChildren_stamp τ c h.1, applyScopeList_stamp τ cs h.2⟩
end

mutual
/-- applyScope leaves a tree alone once every props already carries a truthy
scope: the pre-invocation propagation never overwrites an assigned stamp. -/
theorem applyScope_id (σ τ : String) (hσ : σ ≠ "") :
    ∀ e : Element, stampedElem (some σ) e = true → applyScope e τ = e
  | .mk r props ch, h => by
      unfold stampedElem at h
      rw [Bool.and_eq_true] at h
      obtain ⟨h1, h2⟩ := h
      rw [scopeEntryIs_some_iff] at h1
      unfold applyScope
      cases props with
      | none => simp only [Option.getD] at h1; simp [lookupProp] at h1
      | some p =>
          simp only [Option.getD] at h1
          have ht : scopeTruthy p = true := by
            unfold scopeTruthy; rw [h1]; simp [pvalTruthy, hσ]
          simp only [ht, if_true]
          rw [applyScopeChildren_id σ τ hσ ch h2]

theorem applyScopeChildren_id (σ τ : String) (hσ : σ ≠ "") :
    ∀ c : Children, stampedKids (some σ) c = true → applyScopeChildren c τ = c
  | .absent, _ => by simp [applyScopeChildren]
  | .str s, _ => by simp [applyScopeChildren]
  | .elem e, h => by
      unfold stampedKids at h
      unfold applyScopeChildren
      rw [applyScope_id σ τ hσ e h]
  | .list cs, h => by
      unfold stampedKids at h
      unfold applyScopeChildren
      rw [applyScopeList_id σ τ hσ cs h]

theorem applyScopeList_id (σ τ : String) (hσ : σ ≠ "") :
    ∀ cs : List Children, stampedList (some σ) cs = true → applyScopeList cs τ = cs
  | [], _ => by simp [applyScopeList]
  | c :: cs, h => by
      unfold stampedList at h
      rw [Bool.and_eq_true] at h
      unfold applyScopeList
      rw [applyScopeChildren_id σ τ hσ c h.1, applyScopeList_id σ τ hσ cs h.2]
end

theorem listInheritP_filter (inh : String) (q : RChildren → Bool) :
    ∀ l, listInheritP inh l → listInheritP inh (l.filter q)
  | [], h => h
  | c :: cs, h => by
      unfold listInheritP at h
      by_cases hq : q c = true
      · simp only [List.filter, hq]
        unfold listInheritP
        exact ⟨h.1, listInheritP_filter inh q cs h.2⟩
      · simp only [List.filter, hq]
        exact listInheritP_filter inh q cs h.2

/-- lookupProp_withDefaultScope computes the scope entry of the resolved
props `{ __scope: "", ...element.props }`. -/
theorem lookupProp_withDefaultScope (p : Props) :
    lookupProp (withDefaultScope p) "__scope"
      = some ((lookupProp p "__scope").getD (.str "")) := by
  unfold withDefaultScope
  cases h : lookupProp p "__scope" with
  | none => simp [lookupProp]
  | some v => simp [h]


mutual
/-- render_inheritAux is the inductive heart of the scope invariant: when the
components of the environment synthesize scope-free subtrees and the input
element is uniformly stamped (not at all, or everywhere with one truthy
token), every node render produces carries the inherited token — in its
`scope` and under the `__scope` key of its props — except that a component
boundary switches its own node and its subtree to a token drawn fresh from
the allocator supply. -/
theorem render_inheritAux (env : Env) (hE : CleanEnv env) :
    ∀ (fuel : Nat) (os : Option String) gen e res gen2 ca, OsOK os →
      stampedElem os e = true →
      render env fuel gen (.elem e) = some (res, gen2, ca) →
      optInheritP (os.getD "") res
  | 0, _, _, _, _, _, _, _, _, hr => by simp [render] at hr
  | fuel + 1, os, gen, .mk r props ch, res, gen2, ca, hok, hst, hr => by
      unfold stampedElem at hst
      rw [Bool.and_eq_true] at hst
      obtain ⟨hsp, hsk⟩ := hst
      cases r with
      | comp fid =>
          unfold render at hr
          dsimp only at hr
          cases hA : applyScope (.mk (Ref.comp fid) props ch) (freshTok gen) with
          | mk r1 props1 ch1 =>
            rw [hA] at hr
            dsimp only at hr
            cases hI : render env fuel (gen + 1)
                (.elem (applyScope
                  (env.body fid (setKey (props1.getD []) "__scope"
                    (.str (freshTok gen))) ch1) (freshTok gen))) with
            | none => rw [hI] at hr; simp at hr
            | some out =>
                rw [hI] at hr
                obtain ⟨res', gen2', ca'⟩ := out
                simp only [Option.some.injEq, Prod.mk.injEq] at hr
                have hlook : lookupProp (setKey (props1.getD []) "__scope"
                    (.str (freshTok gen))) "__scope" = some (.str (freshTok gen)) :=
                  lookupProp_setKey_self _ _ _
                have hinner : stampedElem (some (freshTok gen))
                    (applyScope (env.body fid (setKey (props1.getD []) "__scope"
                      (.str (freshTok gen))) ch1) (freshTok gen)) = true :=
                  applyScope_stamp _ _ (hE fid _ ch1)
                have hkids := render_inheritAux env hE fuel (some (freshTok gen))
                  (gen + 1) _ res' gen2' ca' (freshTok_ne_empty gen) hinner hI
                rw [← hr.1]
                unfold optInheritP nodeInheritP
                refine ⟨freshTok gen, ?_, Or.inr ⟨gen, rfl⟩, ?_, ?_⟩
                · unfold scopeOf
                  rw [hlook]
                  rfl
                · rw [show withDefaultScope (setKey (props1.getD []) "__scope"
                      (.str (freshTok gen))) = setKey (props1.getD []) "__scope"
                      (.str (freshTok gen)) from by
                    unfold withDefaultScope; rw [hlook]]
                  exact hlook
                · cases res' with
                  | none => unfold kidsInheritP; trivial
                  | some n => unfold kidsInheritP; exact hkids
      | fragment =>
          unfold render at hr
          dsimp only at hr
          cases hC : renderChildren env fuel (gen + 1) ch with
          | none => rw [hC] at hr; simp at hr
          | some out =>
              rw [hC] at hr
              obtain ⟨chOut, gen2', chAfter⟩ := out
              simp only [Option.some.injEq, Prod.mk.injEq] at hr
              have hkids := renderChildren_inheritAux env hE fuel os (gen + 1) ch chOut
                gen2' chAfter hok hsk hC
              rw [← hr.1]
              unfold optInheritP nodeInheritP
              cases os with
              | none =>
                  rw [scopeEntryIs_none_iff] at hsp
                  refine ⟨"", ?_, Or.inl rfl, ?_, hkids⟩
                  · unfold scopeOf; rw [hsp]; rfl
                  · rw [lookupProp_withDefaultScope, hsp]; rfl
              | some σ =>
                  rw [scopeEntryIs_some_iff] at hsp
                  refine ⟨σ, ?_, Or.inl rfl, ?_, hkids⟩
                  · unfold scopeOf; rw [hsp]; rfl
                  · rw [lookupProp_withDefaultScope, hsp]; rfl
      | tag t =>
          unfold render at hr
          dsimp only at hr
          cases hC : renderChildren env fuel gen ch with
          | none => rw [hC] at hr; simp at hr
          | some out =>
              rw [hC] at hr
              obtain ⟨chOut, gen2', chAfter⟩ := out
              simp only [Option.some.injEq, Prod.mk.injEq] at hr
              have hkids := renderChildren_inheritAux env hE fuel os gen ch chOut
                gen2' chAfter hok hsk hC
              rw [← hr.1]
              unfold optInheritP nodeInheritP
              cases os with
              | none =>
                  rw [scopeEntryIs_none_iff] at hsp
                  refine ⟨?_, ?_, hkids⟩
                  · unfold scopeOf; rw [hsp]; rfl
                  · rw [lookupProp_withDefaultScope, hsp]; rfl
              | some σ =>
                  rw [scopeEntryIs_some_iff] at hsp
                  refine ⟨?_, ?_, hkids⟩
                  · unfold scopeOf; rw [hsp]; rfl
                  · rw [lookupProp_withDefaultScope, hsp]; rfl
      | invalid =>
          unfold render at hr
          dsimp only at hr
          cases hC : renderChildren env fuel gen ch with
          | none => rw [hC] at hr; simp at hr
          | some out =>
              rw [hC] at hr
              obtain ⟨chOut, gen2', chAfter⟩ := out
              simp only [Option.some.injEq, Prod.mk.injEq] at hr
              have hkids := renderChildren_inheritAux env hE fuel os gen ch chOut
                gen2' chAfter hok hsk hC
              rw [← hr.1]
              unfold optInheritP nodeInheritP
              cases os with
              | none =>
                  rw [scopeEntryIs_none_iff] at hsp
                  refine ⟨?_, ?_, hkids⟩
                  · unfold scopeOf; rw [hsp]; rfl
                  · rw [lookupProp_withDefaultScope, hsp]; rfl
              | some σ =>
                  rw [scopeEntryIs_some_iff] at hsp
                  refine ⟨?_, ?_, hkids⟩
                  · unfold scopeOf; rw [hsp]; rfl
                  · rw [lookupProp_withDefaultScope, hsp]; rfl

/-- renderChildren_inheritAux extends the scope invariant over a children
value. -/
theorem renderChildren_inheritAux (env : Env) (hE : CleanEnv env) :
    ∀ (fuel : Nat) (os : Option String) gen c out gen2 ca, OsOK os →
      stampedKids os c = true →
      renderChildren env fuel gen c = some (out, gen2, ca) →
      kidsInheritP (os.getD "") out
  | 0, _, _, _, _, _, _, _, _, hr => by simp [renderChildren] at hr
  | fuel + 1, os, gen, .absent, out, gen2, ca, hok, hst, hr => by
      unfold renderChildren at hr
      simp only [Option.some.injEq, Prod.mk.injEq] at hr
      rw [← hr.1]
      unfold kidsInheritP; trivial
  | fuel + 1, os, gen, .str s, out, gen2, ca, hok, hst, hr => by
      unfold renderChildren at hr
      simp only [Option.some.injEq, Prod.mk.injEq] at hr
      rw [← hr.1]
      unfold kidsInheritP; trivial
  | fuel + 1, os, gen, .elem e, out, gen2, ca, hok, hst, hr => by
      unfold stampedKids at hst
      unfold renderChildren at hr
      cases hR : render env fuel gen (.elem e) with
      | none => rw [hR] at hr; simp at hr
      | some o =>
          rw [hR] at hr
          obtain ⟨res, gen2', eAfter⟩ := o
          simp only [Option.some.injEq, Prod.mk.injEq] at hr
          have hres := render_inheritAux env hE fuel os gen e res gen2' eAfter hok hst hR
          rw [← hr.1]
          cases res with
          | none => unfold kidsInheritP; trivial
          | some n => unfold kidsInheritP; exact hres
  | fuel + 1, os, gen, .list cs, out, gen2, ca, hok, hst, hr => by
      unfold stampedKids at hst
      unfold renderChildren at hr
      cases hL : renderChildrenList env fuel gen cs with
      | none => rw [hL] at hr; simp at hr
      | some o =>
          rw [hL] at hr
          obtain ⟨outs, gen2', csAfter⟩ := o
          simp only [Option.some.injEq, Prod.mk.injEq] at hr
          have houts := renderChildrenList_inheritAux env hE fuel os gen cs outs gen2'
            csAfter hok hst hL
          rw [← hr.1]
          unfold kidsInheritP
          exact listInheritP_filter _ rtruthy outs houts

/-- renderChildrenList_inheritAux extends the scope invariant over a children
array. -/
theorem renderChildrenList_inheritAux (env : Env) (hE : CleanEnv env) :
    ∀ (fuel : Nat) (os : Option String) gen cs outs gen2 ca, OsOK os →
      stampedList os cs = true →
      renderChildrenList env fuel gen cs = some (outs, gen2, ca) →
      listInheritP (os.getD "") outs
  | 0, _, _, _, _, _, _, _, _, hr => by simp [renderChildrenList] at hr
  | fuel + 1, os, gen, [], outs, gen2, ca, hok, hst, hr => by
      unfold renderChildrenList at hr
      simp only [Option.some.injEq, Prod.mk.injEq] at hr
      rw [← hr.1]
      unfold listInheritP; trivial
  | fuel + 1, os, gen, c :: cs, outs, gen2, ca, hok, hst, hr => by
      unfold stampedList at hst
      rw [Bool.and_eq_true] at hst
      unfold renderChildrenList at hr
      cases hC : renderChildren env fuel gen c with
      | none => rw [hC] at hr; simp at hr
      | some o =>
          rw [hC] at hr
          obtain ⟨r, gen1, cAfter⟩ := o
          dsimp only at hr
          cases hL : renderChildrenList env fuel gen1 cs with
          | none => rw [hL] at hr; simp at hr
          | some o2 =>
              rw [hL] at hr
              obtain ⟨rs, gen2', csAfter⟩ := o2
              simp only [Option.some.injEq, Prod.mk.injEq] at hr
              have h1 := renderChildren_inheritAux env hE fuel os gen c r gen1 cAfter
                hok hst.1 hC
              have h2 := renderChildrenList_inheritAux env hE fuel os gen1 cs rs gen2'
                csAfter hok hst.2 hL
              rw [← hr.1]
              unfold listInheritP
              exact ⟨h1, h2⟩
end

/-- propsSkel is a builder props object with the engine-internal scope key
dropped (an absent props object and an empty one have the same skeleton). -/
def propsSkel (props : Option Props) : Props :=
  eraseKey (props.getD []) "__scope"

mutual
/-- stripElem is the scope-free skeleton of a builder element: everything
except the `__scope` entries of the props objects along the tree. -/
def stripElem : Element → Element
  | .mk r props ch => .mk r (some (propsSkel props)) (stripKids ch)

/-- stripKids extends stripElem over a children value. -/
def stripKids : Children → Children
  | .absent => .absent
  | .str s => .str s
  | .elem e => .elem (stripElem e)
  | .list cs => .list (stripList cs)

/-- stripList extends stripElem over a children array. -/
def stripList : List Children → List Children
  | [] => []
  | c :: cs => stripKids c :: stripList cs
end

theorem eraseKey_setKey (p : Props) (k : String) (v : PVal) :
    eraseKey (setKey p k v) k = eraseKey p k := by
  induction p with
  | nil => simp [setKey, eraseKey]
  | cons kv rest ih =>
      obtain ⟨k1, v1⟩ := kv
      by_cases hk : k1 = k
      · simp [setKey, hk, eraseKey]
      · simp [setKey, hk, eraseKey, ih]

mutual
/-- applyScope only writes the scope key: the scope-free skeleton of the
stamped tree is the skeleton of the original. -/
theorem stripElem_applyScope (sc : String) :
    ∀ e : Element, stripElem (applyScope e sc) = stripElem e
  | .mk r props ch => by
      unfold applyScope stripElem
      rw [stripKids_applyScopeChildren sc ch]
      cases props with
      | none => simp [propsSkel, eraseKey]
      | some p =>
          by_cases ht : scopeTruthy p
          · simp [ht]
          · simp only [ht, Bool.false_eq_true, if_false]
            simp [propsSkel, eraseKey_setKey]

theorem stripKids_applyScopeChildren (sc : String) :
    ∀ c : Children, stripKids (applyScopeChildren c sc) = stripKids c
  | .absent => rfl
  | .str s => rfl
  | .elem e => by
      unfold applyScopeChildren stripKids
      rw [stripElem_applyScope sc e]
  | .list cs => by
      unfold applyScopeChildren stripKids
      rw [stripList_applyScopeList sc cs]

theorem stripList_applyScopeList (sc : String) :
    ∀ cs : List Children, stripList (applyScopeList cs sc) = stripList cs
  | [] => rfl
  | c :: cs => by
      unfold applyScopeList stripList
      rw [stripKids_applyScopeChildren sc c, stripList_applyScopeList sc cs]
end

mutual
/-- render_stripAux: the updated input tree that render hands back differs
from the tree it was given only in the `__scope` entries of its props
objects — the reference, the children structure, and every other key are
intact. -/
theorem render_stripAux (env : Env) :
    ∀ (fuel : Nat) gen c res gen2 ca,
      render env fuel gen c = some (res, gen2, ca) → stripKids ca = stripKids c
  | 0, _, _, _, _, _, hr => by simp [render] at hr
  | fuel + 1, gen, .absent, res, gen2, ca, hr => by
      unfold render at hr
      simp only [Option.some.injEq, Prod.mk.injEq] at hr
      rw [← hr.2.2]
  | fuel + 1, gen, .str s, res, gen2, ca, hr => by
      unfold render at hr
      split at hr <;>
        (simp only [Option.some.injEq, Prod.mk.injEq] at hr; rw [← hr.2.2])
  | fuel + 1, gen, .list [], res, gen2, ca, hr => by
      unfold render at hr
      simp only [Option.some.injEq, Prod.mk.injEq] at hr
      rw [← hr.2.2]
  | fuel + 1, gen, .list (c0 :: cs), res, gen2, ca, hr => by
      unfold render at hr
      simp only [Option.some.injEq, Prod.mk.injEq] at hr
      rw [← hr.2.2]
  | fuel + 1, gen, .elem (.mk r props ch), res, gen2, ca, hr => by
      cases r with
      | comp fid =>
          unfold render at hr
          dsimp only at hr
          cases hA : applyScope (.mk (Ref.comp fid) props ch) (freshTok gen) with
          | mk r1 props1 ch1 =>
            rw [hA] at hr
            dsimp only at hr
            cases hI : render env fuel (gen + 1)
                (.elem (applyScope
                  (env.body fid (setKey (props1.getD []) "__scope"
                    (.str (freshTok gen))) ch1) (freshTok gen))) with
            | none => rw [hI] at hr; simp at hr
            | some out =>
                rw [hI] at hr
                obtain ⟨res', gen2', ca'⟩ := out
                simp only [Option.some.injEq, Prod.mk.injEq] at hr
                rw [← hr.2.2]
                dsimp only [applyScope] at hA
                injection hA with hA1 hA2 hA3
                unfold stripKids stripElem
                rw [← hA3, stripKids_applyScopeChildren]
                have hskel : propsSkel (some (setKey (props1.getD []) "__scope"
                    (.str (freshTok gen)))) = propsSkel props := by
                  unfold propsSkel
                  simp only [Option.getD]
                  rw [eraseKey_setKey, ← hA2]
                  simp only [Option.getD]
                  cases props with
                  | none => simp [eraseKey]
                  | some p =>
                      by_cases ht : scopeTruthy p
                      · simp [ht]
                      · simp only [ht, Bool.false_eq_true, if_false]
                        rw [eraseKey_setKey]
                rw [hskel]
      | fragment =>
          unfold render at hr
          dsimp only at hr
          cases hC : renderChildren env fuel (gen + 1) ch with
          | none => rw [hC] at hr; simp at hr
          | some out =>
              rw [hC] at hr
              obtain ⟨chOut, gen2', chAfter⟩ := out
              simp only [Option.some.injEq, Prod.mk.injEq] at hr
              rw [← hr.2.2]
              unfold stripKids stripElem
              rw [renderChildren_stripAux env fuel (gen + 1) ch chOut gen2' chAfter hC]
      | tag t =>
          unfold render at hr
          dsimp only at hr
          cases hC : renderChildren env fuel gen ch with
          | none => rw [hC] at hr; simp at hr
          | some out =>
              rw [hC] at hr
              obtain ⟨chOut, gen2', chAfter⟩ := out
              simp only [Option.some.injEq, Prod.mk.injEq] at hr
              rw [← hr.2.2]
              unfold stripKids stripElem
              rw [renderChildren_stripAux env fuel gen ch chOut gen2' chAfter hC]
      | invalid =>
          unfold render at hr
          dsimp only at hr
          cases hC : renderChildren env fuel gen ch with
          | none => rw [hC] at hr; simp at hr
          | some out =>
              rw [hC] at hr
              obtain ⟨chOut, gen2', chAfter⟩ := out
              simp only [Option.some.injEq, Prod.mk.injEq] at hr
              rw [← hr.2.2]
              unfold stripKids stripElem
              rw [renderChildren_stripAux env fuel gen ch chOut gen2' chAfter hC]

/-- renderChildren_stripAux extends render_stripAux over a children value. -/
theorem renderChildren_stripAux (env : Env) :
    ∀ (fuel : Nat) gen c out gen2 ca,
      renderChildren env fuel gen c = some (out, gen2, ca) → stripKids ca = stripKids c
  | 0, _, _, _, _, _, hr => by simp [renderChildren] at hr
  | fuel + 1, gen, .absent, out, gen2, ca, hr => by
      unfold renderChildren at hr
      simp only [Option.some.injEq, Prod.mk.injEq] at hr
      rw [← hr.2.2]
  | fuel + 1, gen, .str s, out, gen2, ca, hr => by
      unfold renderChildren at hr
      simp only [Option.some.injEq, Prod.mk.injEq] at hr
      rw [← hr.2.2]
  | fuel + 1, gen, .elem e, out, gen2, ca, hr => by
      unfold renderChildren at hr
      cases hR : render env fuel gen (.elem e) with
      | none => rw [hR] at hr; simp at hr
      | some o =>
          rw [hR] at hr
          obtain ⟨res, gen2', eAfter⟩ := o
          simp only [Option.some.injEq, Prod.mk.injEq] at hr
          rw [← hr.2.2]
          exact render_stripAux env fuel gen (.elem e) res gen2' eAfter hR
  | fuel + 1, gen, .list cs, out, gen2, ca, hr => by
      unfold renderChildren at hr
      cases hL : renderChildrenList env fuel gen cs with
      | none => rw [hL] at hr; simp at hr
      | some o =>
          rw [hL] at hr
          obtain ⟨outs, gen2', csAfter⟩ := o
          simp only [Option.some.injEq, Prod.mk.injEq] at hr
          rw [← hr.2.2]
          unfold stripKids
          rw [renderChildrenList_stripAux env fuel gen cs outs gen2' csAfter hL]

/-- renderChildrenList_stripAux extends render_stripAux over a children
array. -/
theorem renderChildrenList_stripAux (env : Env) :
    ∀ (fuel : Nat) gen cs outs gen2 ca,
      renderChildrenList env fuel gen cs = some (outs, gen2, ca) →
      stripList ca = stripList cs
  | 0, _, _, _, _, _, hr => by simp [renderChildrenList] at hr
  | fuel + 1, gen, [], outs, gen2, ca, hr => by
      unfold renderChildrenList at hr
      simp only [Option.some.injEq, Prod.mk.injEq] at hr
      rw [← hr.2.2]
  | fuel + 1, gen, c :: cs, outs, gen2, ca, hr => by
      unfold renderChildrenList at hr
      cases hC : renderChildren env fuel gen c with
      | none => rw [hC] at hr; simp at hr
      | some o =>
          rw [hC] at hr
          obtain ⟨r, gen1, cAfter⟩ := o
          dsimp only at hr
          cases hL : renderChildrenList env fuel gen1 cs with
          | none => rw [hL] at hr; simp at hr
          | some o2 =>
              rw [hL] at hr
              obtain ⟨rs, gen2', csAfter⟩ := o2
              simp only [Option.some.injEq, Prod.mk.injEq] at hr
              rw [← hr.2.2]
              unfold stripList
              rw [renderChildren_stripAux env fuel gen c r gen1 cAfter hC,
                renderChildrenList_stripAux env fuel gen1 cs rs gen2' csAfter hL]
end

/-! Script collection for the hydration walker claims. -/

mutual
/-- scriptIds lists every behavior id carried by a virtual node anywhere in a
resolved tree (including inside nested arrays). -/
def scriptIds : Node → List Nat
  | .intrinsic _ ch _ _ => scriptIdsKids ch
  | .virtual ch _ _ scr _ =>
      (match scr with | some sid => [sid] | none => []) ++ scriptIdsKids ch

/-- scriptIdsKids extends scriptIds over resolved children. -/
def scriptIdsKids : RChildren → List Nat
  | .absent => []
  | .str _ => []
  | .node n => scriptIds n
  | .list cs => scriptIdsList cs

/-- scriptIdsList extends scriptIds over a resolved children array. -/
def scriptIdsList : List RChildren → List Nat
  | [] => []
  | c :: cs => scriptIdsKids c ++ scriptIdsList cs
end

mutual
/-- runScript only invokes behaviors that virtual nodes of the tree carry. -/
theorem runScript_subset_scriptIds :
    ∀ (n : Node) (s : Nat), s ∈ runScript n → s ∈ scriptIds n
  | .intrinsic tg ch props sc, s, h => by
      unfold runScript at h
      unfold scriptIds
      exact runScriptKids_subset ch s h
  | .virtual ch props st scr sc, s, h => by
      unfold runScript at h
      unfold scriptIds
      rw [List.mem_append] at h ⊢
      cases h with
      | inl h => exact Or.inl h
      | inr h => exact Or.inr (runScriptKids_subset ch s h)

theorem runScriptKids_subset :
    ∀ (c : RChildren) (s : Nat), s ∈ runScriptKids c → s ∈ scriptIdsKids c
  | .absent, s, h => h
  | .str _, s, h => h
  | .node n, s, h => runScript_subset_scriptIds n s h
  | .list cs, s, h => by
      unfold runScriptKids at h
      unfold scriptIdsKids
      exact runScriptArr_subset cs s h

theorem runScriptArr_subset :
    ∀ (cs : List RChildren) (s : Nat), s ∈ runScriptArr cs → s ∈ scriptIdsList cs
  | [], s, h => h
  | c :: cs, s, h => by
      unfold runScriptArr at h
      unfold scriptIdsList
      rw [List.mem_append] at h ⊢
      cases h with
      | inl h => exact Or.inl (runScriptEntry_subset c s h)
      | inr h => exact Or.inr (runScriptArr_subset cs s h)

theorem runScriptEntry_subset :
    ∀ (c : RChildren) (s : Nat), s ∈ runScriptEntry c → s ∈ scriptIdsKids c
  | .absent, s, h => h
  | .str _, s, h => h
  | .node n, s, h => runScript_subset_scriptIds n s h
  | .list cs, s, h => by unfold runScriptEntry at h; simp at h
end

theorem lookupProp_eraseKey_self (p : Props) (k : String) :
    lookupProp (eraseKey p k) k = none := by
  induction p with
  | nil => simp [eraseKey, lookupProp]
  | cons kv rest ih =>
      obtain ⟨k1, v1⟩ := kv
      by_cases hk : k1 = k
      · simp [eraseKey, hk, ih]
      · simp [eraseKey, hk, lookupProp, ih]

theorem lookupProp_eraseKey_other (p : Props) (k k0 : String) (h : k ≠ k0) :
    lookupProp (eraseKey p k0) k = lookupProp p k := by
  induction p with
  | nil => simp [eraseKey]
  | cons kv rest ih =>
      obtain ⟨k1, v1⟩ := kv
      have hne : ¬ k0 = k := fun hh => h hh.symm
      by_cases hk : k1 = k0
      · simp [eraseKey, hk, lookupProp, hne, ih]
      · by_cases hk' : k1 = k
        · simp [eraseKey, hk, lookupProp, hk', h, ih]
        · simp [eraseKey, hk, lookupProp, hk', ih]

mutual
/-- mixedStampElem holds when every props object in a builder tree carries
either no `__scope` entry or exactly the given token — the shape of a
component body's return value when the body invents no stamps of its own but
may re-embed (forward) children already stamped with the current token. -/
def mixedStampElem (σ : String) : Element → Bool
  | .mk _ props ch =>
      (scopeEntryIs (lookupProp (props.getD []) "__scope") none
        || scopeEntryIs (lookupProp (props.getD []) "__scope") (some σ))
      && mixedStampKids σ ch

/-- mixedStampKids extends mixedStampElem over a children value. -/
def mixedStampKids (σ : String) : Children → Bool
  | .absent => true
  | .str _ => true
  | .elem e => mixedStampElem σ e
  | .list cs => mixedStampList σ cs

/-- mixedStampList extends mixedStampElem over a children array. -/
def mixedStampList (σ : String) : List Children → Bool
  | [] => true
  | c :: cs => mixedStampKids σ c && mixedStampList σ cs
end

/-- NoNewStamps says the component functions of the environment never invent
a scope stamp: whatever stamps appear on the subtree a component returns
were already on the children it received (uniformly stamped with the current
token when render invokes it), everything else it synthesizes being
stamp-free.  Authored JSX components — including child-forwarding wrappers
such as Layout — satisfy this, since `__scope` is an engine-reserved key no
author writes. -/
def NoNewStamps (env : Env) : Prop :=
  ∀ fid p cs σ, σ ≠ "" → stampedKids (some σ) cs = true →
    mixedStampElem σ (env.body fid p cs) = true

mutual
/-- sharesNode formalizes the sharing half of the scope-propagation claim:
starting from a node resolved under the token σ, every descendant reached
without crossing a component boundary carries σ.  An intrinsic node never
crosses, so it must carry σ and pass the obligation on; a virtual node whose
scope differs from σ is a crossed boundary, below which nothing is required
— when its scope still equals σ (a Fragment, or a boundary whose allocation
coincides with σ) the obligation continues below it. -/
def sharesNode (σ : String) : Node → Prop
  | .intrinsic _ ch _ sc => sc = .str σ ∧ sharesKids σ ch
  | .virtual ch _ _ _ sc => sc = .str σ → sharesKids σ ch

/-- sharesKids extends sharesNode over resolved children. -/
def sharesKids (σ : String) : RChildren → Prop
  | .absent => True
  | .str _ => True
  | .node n => sharesNode σ n
  | .list cs => sharesList σ cs

/-- sharesList extends sharesNode over a resolved children array. -/
def sharesList (σ : String) : List RChildren → Prop
  | [] => True
  | c :: cs => sharesKids σ c ∧ sharesList σ cs
end

/-- optShares lifts sharesNode over the `Node | undefined` result of
render. -/
def optShares (σ : String) : Option Node → Prop
  | none => True
  | some n => sharesNode σ n

mutual
/-- scopeConsistentNode states the unconditional part of the scope
invariant: every resolved node's props carries a `__scope` entry — exactly
one scope value under the lookup semantics of a JS object — and it equals
the node's `scope` field, both set together when the node is built and never
rewritten. -/
def scopeConsistentNode : Node → Prop
  | .intrinsic _ ch props sc =>
      lookupProp props "__scope" = some sc ∧ scopeConsistentKids ch
  | .virtual ch props _ _ sc =>
      lookupProp props "__scope" = some sc ∧ scopeConsistentKids ch

/-- scopeConsistentKids extends scopeConsistentNode over resolved
children. -/
def scopeConsistentKids : RChildren → Prop
  | .absent => True
  | .str _ => True
  | .node n => scopeConsistentNode n
  | .list cs => scopeConsistentList cs

/-- scopeConsistentList extends scopeConsistentNode over a resolved children
array. -/
def scopeConsistentList : List RChildren → Prop
  | [] => True
  | c :: cs => scopeConsistentKids c ∧ scopeConsistentList cs
end

/-- optScopeConsistent lifts scopeConsistentNode over the `Node | undefined`
result of render. -/
def optScopeConsistent : Option Node → Prop
  | none => True
  | some n => scopeConsistentNode n

mutual
/-- applyScope turns a tree whose stamps are at most the given truthy token
into a uniformly stamped one: unstamped nodes receive the token, stamped
ones already carry it. -/
theorem applyScope_stamp_mixed (τ : String) (hτ : τ ≠ "") :
    ∀ e : Element, mixedStampElem τ e = true →
      stampedElem (some τ) (applyScope e τ) = true
  | .mk r props ch, h => by
      unfold mixedStampElem at h
      rw [Bool.and_eq_true, Bool.or_eq_true] at h
      obtain ⟨h1, h2⟩ := h
      unfold applyScope stampedElem
      rw [Bool.and_eq_true]
      refine ⟨?_, applyScopeKids_stamp_mixed τ hτ ch h2⟩
      cases h1 with
      | inl h1 =>
          rw [scopeEntryIs_none_iff] at h1
          cases props with
          | none => simp [Option.getD, lookupProp, scopeEntryIs]
          | some p =>
              simp only [Option.getD] at h1 ⊢
              have hf : scopeTruthy p = false := by unfold scopeTruthy; rw [h1]
              simp only [hf, Bool.false_eq_true, if_false]
              rw [scopeEntryIs_some_iff, lookupProp_setKey_self]
      | inr h1 =>
          rw [scopeEntryIs_some_iff] at h1
          cases props with
          | none => simp [Option.getD, lookupProp] at h1
          | some p =>
              simp only [Option.getD] at h1 ⊢
              have ht : scopeTruthy p = true := by
                unfold scopeTruthy; rw [h1]; simp [pvalTruthy, hτ]
              simp only [ht, if_true]
              rw [scopeEntryIs_some_iff]
              exact h1

theorem applyScopeKids_stamp_mixed (τ : String) (hτ : τ ≠ "") :
    ∀ c : Children, mixedStampKids τ c = true →
      stampedKids (some τ) (applyScopeChildren c τ) = true
  | .absent, _ => by simp [applyScopeChildren, stampedKids]
  | .str s, _ => by simp [applyScopeChildren, stampedKids]
  | .elem e, h => by
      unfold mixedStampKids at h
      unfold applyScopeChildren stampedKids
      exact applyScope_stamp_mixed τ hτ e h
  | .list cs, h => by
      unfold mixedStampKids at h
      unfold applyScopeChildren stampedKids
      exact applyScopeList_stamp_mixed τ hτ cs h

theorem applyScopeList_stamp_mixed (τ : String) (hτ : τ ≠ "") :
    ∀ cs : List Children, mixedStampList τ cs = true →
      stampedList (some τ) (applyScopeList cs τ) = true
  | [], _ => by simp [applyScopeList, stampedList]
  | c :: cs, h => by
      unfold mixedStampList at h
      rw [Bool.and_eq_true] at h
      unfold applyScopeList stampedList
      rw [Bool.and_eq_true]
      exact ⟨applyScopeKids_stamp_mixed τ hτ c h.1, applyScopeList_stamp_mixed τ hτ cs h.2⟩
end

mutual
/-- stampedElem_mixed: a tree uniformly stamped with a token in particular
carries at most that token. -/
theorem stampedElem_mixed (σ : String) :
    ∀ e : Element, stampedElem (some σ) e = true → mixedStampElem σ e = true
  | .mk r props ch, h => by
      unfold stampedElem at h
      rw [Bool.and_eq_true] at h
      unfold mixedStampElem
      rw [Bool.and_eq_true, Bool.or_eq_true]
      exact ⟨Or.inr h.1, stampedKids_mixed σ ch h.2⟩

/-- stampedKids_mixed extends stampedElem_mixed over a children value. -/
theorem stampedKids_mixed (σ : String) :
    ∀ c : Children, stampedKids (some σ) c = true → mixedStampKids σ c = true
  | .absent, _ => rfl
  | .str _, _ => rfl
  | .elem e, h => by
      unfold stampedKids at h
      unfold mixedStampKids
      exact stampedElem_mixed σ e h
  | .list cs, h => by
      unfold stampedKids at h
      unfold mixedStampKids
      exact stampedList_mixed σ cs h

/-- stampedList_mixed extends stampedElem_mixed over a children array. -/
theorem stampedList_mixed (σ : String) :
    ∀ cs : List Children, stampedList (some σ) cs = true → mixedStampList σ cs = true
  | [], _ => rfl
  | c :: cs, h => by
      unfold stampedList at h
      rw [Bool.and_eq_true] at h
      unfold mixedStampList
      rw [Bool.and_eq_true]
      exact ⟨stampedKids_mixed σ c h.1, stampedList_mixed σ cs h.2⟩
end

theorem sharesList_filter (σ : String) (q : RChildren → Bool) :
    ∀ l, sharesList σ l → sharesList σ (l.filter q)
  | [], h => h
  | c :: cs, h => by
      unfold sharesList at h
      by_cases hq : q c = true
      · simp only [List.filter, hq]
        unfold sharesList
        exact ⟨h.1, sharesList_filter σ q cs h.2⟩
      · simp only [List.filter, hq]
        exact sharesList_filter σ q cs h.2

theorem scopeConsistentList_filter (q : RChildren → Bool) :
    ∀ l, scopeConsistentList l → scopeConsistentList (l.filter q)
  | [], h => h
  | c :: cs, h => by
      unfold scopeConsistentList at h
      by_cases hq : q c = true
      · simp only [List.filter, hq]
        unfold scopeConsistentList
        exact ⟨h.1, scopeConsistentList_filter q cs h.2⟩
      · simp only [List.filter, hq]
        exact scopeConsistentList_filter q cs h.2

mutual
/-- render_sharesAux: when components invent no stamps of their own
(`NoNewStamps`, which child-forwarding wrappers satisfy) and the input tree
is uniformly stamped with the truthy token σ, every resolved descendant
reached without crossing a component boundary carries σ.  At a nested
boundary the obligation only persists when the boundary's own token
coincides with σ, in which case its body's subtree is again uniformly
σ-stamped and the induction continues. -/
theorem render_sharesAux (env : Env) (hN : NoNewStamps env) :
    ∀ (fuel : Nat) (σ : String) gen e res gen2 ca, σ ≠ "" →
      stampedElem (some σ) e = true →
      render env fuel gen (.elem e) = some (res, gen2, ca) →
      optShares σ res
  | 0, _, _, _, _, _, _, _, _, hr => by simp [render] at hr
  | fuel + 1, σ, gen, .mk r props ch, res, gen2, ca, hσ, hst, hr => by
      have hst' := hst
      unfold stampedElem at hst'
      rw [Bool.and_eq_true] at hst'
      obtain ⟨hsp, hsk⟩ := hst'
      cases r with
      | comp fid =>
          unfold render at hr
          dsimp only at hr
          rw [applyScope_id σ (freshTok gen) hσ _ hst] at hr
          dsimp only at hr
          cases hI : render env fuel (gen + 1)
              (.elem (applyScope
                (env.body fid (setKey (props.getD []) "__scope"
                  (.str (freshTok gen))) ch) (freshTok gen))) with
          | none => rw [hI] at hr; simp at hr
          | some out =>
              rw [hI] at hr
              obtain ⟨res', gen2', ca'⟩ := out
              simp only [Option.some.injEq, Prod.mk.injEq] at hr
              rw [← hr.1]
              unfold optShares sharesNode
              have hsc : scopeOf (setKey (props.getD []) "__scope"
                  (.str (freshTok gen))) = .str (freshTok gen) := by
                unfold scopeOf; rw [lookupProp_setKey_self]; rfl
              rw [hsc]
              intro hcol
              injection hcol with hcol
              subst hcol
              have hm : mixedStampElem (freshTok gen)
                  (env.body fid (setKey (props.getD []) "__scope"
                    (.str (freshTok gen))) ch) = true :=
                hN fid _ ch (freshTok gen) (freshTok_ne_empty gen) hsk
              have hu : stampedElem (some (freshTok gen))
                  (applyScope (env.body fid (setKey (props.getD []) "__scope"
                    (.str (freshTok gen))) ch) (freshTok gen)) = true :=
                applyScope_stamp_mixed (freshTok gen) (freshTok_ne_empty gen) _ hm
              have hsh := render_sharesAux env hN fuel (freshTok gen) (gen + 1) _
                res' gen2' ca' (freshTok_ne_empty gen) hu hI
              cases res' with
              | none => unfold sharesKids; trivial
              | some n =>
                  unfold sharesKids
                  unfold optShares at hsh
                  exact hsh
      | fragment =>
          unfold render at hr
          dsimp only at hr
          cases hC : renderChildren env fuel (gen + 1) ch with
          | none => rw [hC] at hr; simp at hr
          | some out =>
              rw [hC] at hr
              obtain ⟨chOut, gen2', chAfter⟩ := out
              simp only [Option.some.injEq, Prod.mk.injEq] at hr
              rw [← hr.1]
              unfold optShares sharesNode
              intro _
              exact renderChildren_sharesAux env hN fuel σ (gen + 1) ch chOut
                gen2' chAfter hσ hsk hC
      | tag t =>
          unfold render at hr
          dsimp only at hr
          cases hC : renderChildren env fuel gen ch with
          | none => rw [hC] at hr; simp at hr
          | some out =>
              rw [hC] at hr
              obtain ⟨chOut, gen2', chAfter⟩ := out
              simp only [Option.some.injEq, Prod.mk.injEq] at hr
              rw [← hr.1]
              unfold optShares sharesNode
              rw [scopeEntryIs_some_iff] at hsp
              refine ⟨?_, renderChildren_sharesAux env hN fuel σ gen ch chOut
                gen2' chAfter hσ hsk hC⟩
              unfold scopeOf
              rw [hsp]
              rfl
      | invalid =>
          unfold render at hr
          dsimp only at hr
          cases hC : renderChildren env fuel gen ch with
          | none => rw [hC] at hr; simp at hr
          | some out =>
              rw [hC] at hr
              obtain ⟨chOut, gen2', chAfter⟩ := out
              simp only [Option.some.injEq, Prod.mk.injEq] at hr
              rw [← hr.1]
              unfold optShares sharesNode
              rw [scopeEntryIs_some_iff] at hsp
              refine ⟨?_, renderChildren_sharesAux env hN fuel σ gen ch chOut
                gen2' chAfter hσ hsk hC⟩
              unfold scopeOf
              rw [hsp]
              rfl

/-- renderChildren_sharesAux extends render_sharesAux over a children
value. -/
theorem renderChildren_sharesAux (env : Env) (hN : NoNewStamps env) :
    ∀ (fuel : Nat) (σ : String) gen c out gen2 ca, σ ≠ "" →
      stampedKids (some σ) c = true →
      renderChildren env fuel gen c = some (out, gen2, ca) →
      sharesKids σ out
  | 0, _, _, _, _, _, _, _, _, hr => by simp [renderChildren] at hr
  | fuel + 1, σ, gen, .absent, out, gen2, ca, hσ, hst, hr => by
      unfold renderChildren at hr
      simp only [Option.some.injEq, Prod.mk.injEq] at hr
      rw [← hr.1]
      unfold sharesKids; trivial
  | fuel + 1, σ, gen, .str s, out, gen2, ca, hσ, hst, hr => by
      unfold renderChildren at hr
      simp only [Option.some.injEq, Prod.mk.injEq] at hr
      rw [← hr.1]
      unfold sharesKids; trivial
  | fuel + 1, σ, gen, .elem e, out, gen2, ca, hσ, hst, hr => by
      unfold stampedKids at hst
      unfold renderChildren at hr
      cases hR : render env fuel gen (.elem e) with
      | none => rw [hR] at hr; simp at hr
      | some o =>
          rw [hR] at hr
          obtain ⟨res, gen2', eAfter⟩ := o
          simp only [Option.some.injEq, Prod.mk.injEq] at hr
          have hres := render_sharesAux env hN fuel σ gen e res gen2' eAfter hσ hst hR
          rw [← hr.1]
          cases res with
          | none => unfold sharesKids; trivial
          | some n =>
              unfold sharesKids
              unfold optShares at hres
              exact hres
  | fuel + 1, σ, gen, .list cs, out, gen2, ca, hσ, hst, hr => by
      unfold stampedKids at hst
      unfold renderChildren at hr
      cases hL : renderChildrenList env fuel gen cs with
      | none => rw [hL] at hr; simp at hr
      | some o =>
          rw [hL] at hr
          obtain ⟨outs, gen2', csAfter⟩ := o
          simp only [Option.some.injEq, Prod.mk.injEq] at hr
          have houts := renderChildrenList_sharesAux env hN fuel σ gen cs outs gen2'
            csAfter hσ hst hL
          rw [← hr.1]
          unfold sharesKids
          exact sharesList_filter σ rtruthy outs houts

/-- renderChildrenList_sharesAux extends render_sharesAux over a children
array. -/
theorem renderChildrenList_sharesAux (env : Env) (hN : NoNewStamps env) :
    ∀ (fuel : Nat) (σ : String) gen cs outs gen2 ca, σ ≠ "" →
      stampedList (some σ) cs = true →
      renderChildrenList env fuel gen cs = some (outs, gen2, ca) →
      sharesList σ outs
  | 0, _, _, _, _, _, _, _, _, hr => by simp [renderChildrenList] at hr
  | fuel + 1, σ, gen, [], outs, gen2, ca, hσ, hst, hr => by
      unfold renderChildrenList at hr
      simp only [Option.some.injEq, Prod.mk.injEq] at hr
      rw [← hr.1]
      unfold sharesList; trivial
  | fuel + 1, σ, gen, c :: cs, outs, gen2, ca, hσ, hst, hr => by
      unfold stampedList at hst
      rw [Bool.and_eq_true] at hst
      unfold renderChildrenList at hr
      cases hC : renderChildren env fuel gen c with
      | none => rw [hC] at hr; simp at hr
      | some o =>
          rw [hC] at hr
          obtain ⟨r, gen1, cAfter⟩ := o
          dsimp only at hr
          cases hL : renderChildrenList env fuel gen1 cs with
          | none => rw [hL] at hr; simp at hr
          | some o2 =>
              rw [hL] at hr
              obtain ⟨rs, gen2', csAfter⟩ := o2
              simp only [Option.some.injEq, Prod.mk.injEq] at hr
              have h1 := renderChildren_sharesAux env hN fuel σ gen c r gen1 cAfter
                hσ hst.1 hC
              have h2 := renderChildrenList_sharesAux env hN fuel σ gen1 cs rs gen2'
                csAfter hσ hst.2 hL
              rw [← hr.1]
              unfold sharesList
              exact ⟨h1, h2⟩
end

mutual
/-- render_consistAux: with no hypothesis on the environment or the input,
every node render produces has a `__scope` entry in its props equal to its
`scope` field — the resolved props determine exactly one scope value, fixed
when the node is built. -/
theorem render_consistAux (env : Env) :
    ∀ (fuel : Nat) gen c res gen2 ca,
      render env fuel gen c = some (res, gen2, ca) → optScopeConsistent res
  | 0, _, _, _, _, _, hr => by simp [render] at hr
  | fuel + 1, gen, .absent, res, gen2, ca, hr => by
      unfold render at hr
      simp only [Option.some.injEq, Prod.mk.injEq] at hr
      rw [← hr.1]
      unfold optScopeConsistent; trivial
  | fuel + 1, gen, .str s, res, gen2, ca, hr => by
      unfold render at hr
      split at hr <;> simp only [Option.some.injEq, Prod.mk.injEq] at hr <;> rw [← hr.1]
      · unfold optScopeConsistent; trivial
      · unfold optScopeConsistent scopeConsistentNode
        exact ⟨rfl, trivial⟩
  | fuel + 1, gen, .list [], res, gen2, ca, hr => by
      unfold render at hr
      simp only [Option.some.injEq, Prod.mk.injEq] at hr
      rw [← hr.1]
      unfold optScopeConsistent; trivial
  | fuel + 1, gen, .list (c0 :: cs), res, gen2, ca, hr => by
      unfold render at hr
      simp only [Option.some.injEq, Prod.mk.injEq] at hr
      rw [← hr.1]
      unfold optScopeConsistent scopeConsistentNode
      exact ⟨rfl, trivial⟩
  | fuel + 1, gen, .elem (.mk r props ch), res, gen2, ca, hr => by
      cases r with
      | comp fid =>
          unfold render at hr
          dsimp only at hr
          cases hA : applyScope (.mk (Ref.comp fid) props ch) (freshTok gen) with
          | mk r1 props1 ch1 =>
            rw [hA] at hr
            dsimp only at hr
            cases hI : render env fuel (gen + 1)
                (.elem (applyScope
                  (env.body fid (setKey (props1.getD []) "__scope"
                    (.str (freshTok gen))) ch1) (freshTok gen))) with
            | none => rw [hI] at hr; simp at hr
            | some out =>
                rw [hI] at hr
                obtain ⟨res', gen2', ca'⟩ := out
                simp only [Option.some.injEq, Prod.mk.injEq] at hr
                have hkid := render_consistAux env fuel (gen + 1) _ res' gen2' ca' hI
                rw [← hr.1]
                unfold optScopeConsistent scopeConsistentNode
                refine ⟨?_, ?_⟩
                · rw [lookupProp_withDefaultScope]; rfl
                · cases res' with
                  | none => unfold scopeConsistentKids; trivial
                  | some n =>
                      unfold scopeConsistentKids
                      unfold optScopeConsistent at hkid
                      exact hkid
      | fragment =>
          unfold render at hr
          dsimp only at hr
          cases hC : renderChildren env fuel (gen + 1) ch with
          | none => rw [hC] at hr; simp at hr
          | some out =>
              rw [hC] at hr
              obtain ⟨chOut, gen2', chAfter⟩ := out
              simp only [Option.some.injEq, Prod.mk.injEq] at hr
              have hkid := renderChildren_consistAux env fuel (gen + 1) ch chOut
                gen2' chAfter hC
              rw [← hr.1]
              unfold optScopeConsistent scopeConsistentNode
              refine ⟨?_, hkid⟩
              rw [lookupProp_withDefaultScope]; rfl
      | tag t =>
          unfold render at hr
          dsimp only at hr
          cases hC : renderChildren env fuel gen ch with
          | none => rw [hC] at hr; simp at hr
          | some out =>
              rw [hC] at hr
              obtain ⟨chOut, gen2', chAfter⟩ := out
              simp only [Option.some.injEq, Prod.mk.injEq] at hr
              have hkid := renderChildren_consistAux env fuel gen ch chOut
                gen2' chAfter hC
              rw [← hr.1]
              unfold optScopeConsistent scopeConsistentNode
              refine ⟨?_, hkid⟩
              rw [lookupProp_withDefaultScope]; rfl
      | invalid =>
          unfold render at hr
          dsimp only at hr
          cases hC : renderChildren env fuel gen ch with
          | none => rw [hC] at hr; simp at hr
          | some out =>
              rw [hC] at hr
              obtain ⟨chOut, gen2', chAfter⟩ := out
              simp only [Option.some.injEq, Prod.mk.injEq] at hr
              have hkid := renderChildren_consistAux env fuel gen ch chOut
                gen2' chAfter hC
              rw [← hr.1]
              unfold optScopeConsistent scopeConsistentNode
              refine ⟨?_, hkid⟩
              rw [lookupProp_withDefaultScope]; rfl

/-- renderChildren_consistAux extends render_consistAux over a children
value. -/
theorem renderChildren_consistAux (env : Env) :
    ∀ (fuel : Nat) gen c out gen2 ca,
      renderChildren env fuel gen c = some (out, gen2, ca) → scopeConsistentKids out
  | 0, _, _, _, _, _, hr => by simp [renderChildren] at hr
  | fuel + 1, gen, .absent, out, gen2, ca, hr => by
      unfold renderChildren at hr
      simp only [Option.some.injEq, Prod.mk.injEq] at hr
      rw [← hr.1]
      unfold scopeConsistentKids; trivial
  | fuel + 1, gen, .str s, out, gen2, ca, hr => by
      unfold renderChildren at hr
      simp only [Option.some.injEq, Prod.mk.injEq] at hr
      rw [← hr.1]
      unfold scopeConsistentKids; trivial
  | fuel + 1, gen, .elem e, out, gen2, ca, hr => by
      unfold renderChildren at hr
      cases hR : render env fuel gen (.elem e) with
      | none => rw [hR] at hr; simp at hr
      | some o =>
          rw [hR] at hr
          obtain ⟨res, gen2', eAfter⟩ := o
          simp only [Option.some.injEq, Prod.mk.injEq] at hr
          have hres := render_consistAux env fuel gen (.elem e) res gen2' eAfter hR
          rw [← hr.1]
          cases res with
          | none => unfold scopeConsistentKids; trivial
          | some n =>
              unfold scopeConsistentKids
              unfold optScopeConsistent at hres
              exact hres
  | fuel + 1, gen, .list cs, out, gen2, ca, hr => by
      unfold renderChildren at hr
      cases hL : renderChildrenList env fuel gen cs with
      | none => rw [hL] at hr; simp at hr
      | some o =>
          rw [hL] at hr
          obtain ⟨outs, gen2', csAfter⟩ := o
          simp only [Option.some.injEq, Prod.mk.injEq] at hr
          have houts := renderChildrenList_consistAux env fuel gen cs outs gen2'
            csAfter hL
          rw [← hr.1]
          unfold scopeConsistentKids
          exact scopeConsistentList_filter rtruthy outs houts

/-- renderChildrenList_consistAux extends render_consistAux over a children
array. -/
theorem renderChildrenList_consistAux (env : Env) :
    ∀ (fuel : Nat) gen cs outs gen2 ca,
      renderChildrenList env fuel gen cs = some (outs, gen2, ca) →
      scopeConsistentList outs
  | 0, _, _, _, _, _, hr => by simp [renderChildrenList] at hr
  | fuel + 1, gen, [], outs, gen2, ca, hr => by
      unfold renderChildrenList at hr
      simp only [Option.some.injEq, Prod.mk.injEq] at hr
      rw [← hr.1]
      unfold scopeConsistentList; trivial
  | fuel + 1, gen, c :: cs, outs, gen2, ca, hr => by
      unfold renderChildrenList at hr
      cases hC : renderChildren env fuel gen c with
      | none => rw [hC] at hr; simp at hr
      | some o =>
          rw [hC] at hr
          obtain ⟨r, gen1, cAfter⟩ := o
          dsimp only at hr
          cases hL : renderChildrenList env fuel gen1 cs with
          | none => rw [hL] at hr; simp at hr
          | some o2 =>
              rw [hL] at hr
              obtain ⟨rs, gen2', csAfter⟩ := o2
              simp only [Option.some.injEq, Prod.mk.injEq] at hr
              have h1 := renderChildren_consistAux env fuel gen c r gen1 cAfter hC
              have h2 := renderChildrenList_consistAux env fuel gen1 cs rs gen2'
                csAfter hL
              rw [← hr.1]
              unfold scopeConsistentList
              exact ⟨h1, h2⟩
end

/-- render_comp_fresh: resolving a component element always attaches the
token drawn at that instant — line 89's unconditional write makes the
boundary node's scope the fresh token whatever stamp the element carried
before. -/
theorem render_comp_fresh (env : Env) :
    ∀ (fuel : Nat) gen fid props ch n gen2 ca,
      render env fuel gen (.elem (.mk (.comp fid) props ch)) = some (some n, gen2, ca) →
      ∃ kids nprops st scr, n = .virtual kids nprops st scr (.str (freshTok gen)) := by
  intro fuel gen fid props ch n gen2 ca hr
  match fuel with
  | 0 => simp [render] at hr
  | fuel + 1 =>
    unfold render at hr
    dsimp only at hr
    cases hA : applyScope (.mk (Ref.comp fid) props ch) (freshTok gen) with
    | mk r1 props1 ch1 =>
      rw [hA] at hr
      dsimp only at hr
      cases hI : render env fuel (gen + 1)
          (.elem (applyScope
            (env.body fid (setKey (props1.getD []) "__scope"
              (.str (freshTok gen))) ch1) (freshTok gen))) with
      | none => rw [hI] at hr; simp at hr
      | some out =>
          rw [hI] at hr
          obtain ⟨res', gen2', ca'⟩ := out
          simp only [Option.some.injEq, Prod.mk.injEq] at hr
          have hsc : scopeOf (setKey (props1.getD []) "__scope" (.str (freshTok gen)))
              = .str (freshTok gen) := by
            unfold scopeOf; rw [lookupProp_setKey_self]; rfl
          obtain ⟨h1, -, -⟩ := hr
          subst h1
          rw [hsc]
          exact ⟨_, _, _, _, rfl⟩

/-- render_tag_default: an intrinsic element whose props carry no scope
resolves with scope `""` — the default when no boundary above it ever
stamped it. -/
theorem render_tag_default (env : Env) :
    ∀ (fuel : Nat) gen t props ch n gen2 ca,
      lookupProp (props.getD []) "__scope" = none →
      render env fuel gen (.elem (.mk (.tag t) props ch)) = some (some n, gen2, ca) →
      ∃ kids nprops, n = .intrinsic (some (.tag t)) kids nprops (.str "") := by
  intro fuel gen t props ch n gen2 ca hsc0 hr
  match fuel with
  | 0 => simp [render] at hr
  | fuel + 1 =>
    unfold render at hr
    dsimp only at hr
    cases hC : renderChildren env fuel gen ch with
    | none => rw [hC] at hr; simp at hr
    | some out =>
        rw [hC] at hr
        obtain ⟨chOut, gen2', chAfter⟩ := out
        simp only [Option.some.injEq, Prod.mk.injEq] at hr
        have hsc : scopeOf (props.getD []) = .str "" := by
          unfold scopeOf; rw [hsc0]; rfl
        obtain ⟨h1, -, -⟩ := hr
        subst h1
        rw [hsc]
        exact ⟨_, _, rfl⟩

/-- render_fragment_default: a Fragment element whose props carry no scope
resolves with scope `""` — Fragments allocate nothing and inherit the
default. -/
theorem render_fragment_default (env : Env) :
    ∀ (fuel : Nat) gen props ch n gen2 ca,
      lookupProp (props.getD []) "__scope" = none →
      render env fuel gen (.elem (.mk Ref.fragment props ch)) = some (some n, gen2, ca) →
      ∃ kids nprops, n = .virtual kids nprops none none (.str "") := by
  intro fuel gen props ch n gen2 ca hsc0 hr
  match fuel with
  | 0 => simp [render] at hr
  | fuel + 1 =>
    unfold render at hr
    dsimp only at hr
    cases hC : renderChildren env fuel (gen + 1) ch with
    | none => rw [hC] at hr; simp at hr
    | some out =>
        rw [hC] at hr
        obtain ⟨chOut, gen2', chAfter⟩ := out
        simp only [Option.some.injEq, Prod.mk.injEq] at hr
        have hsc : scopeOf (props.getD []) = .str "" := by
          unfold scopeOf; rw [hsc0]; rfl
        obtain ⟨h1, -, -⟩ := hr
        subst h1
        rw [hsc]
        exact ⟨_, _, rfl⟩

/-! Concrete environments and inputs used to exercise the claims. -/

/-- env0 interprets every component id as a constant component returning a
scope-free `p` element, with no style and no script. -/
def env0 : Env :=
  ⟨fun _ _ _ => .mk (.tag "p") (some []) .absent, fun _ => none, fun _ => none⟩

/-- layoutEnv interprets component 0 as the styleless forwarding wrapper
`Layout = ({children}) => <main>{children}</main>` of the spec's scenario. -/
def layoutEnv : Env :=
  ⟨fun _ _ cs => .mk (.tag "main") (some []) cs, fun _ => none, fun _ => none⟩

/-- layoutEnv_noNewStamps: the forwarding wrapper of the spec's scenario
invents no stamps, so it lies inside the class the sharing theorem
covers. -/
theorem layoutEnv_noNewStamps : NoNewStamps layoutEnv := by
  intro fid p cs σ hσ hst
  show mixedStampElem σ (.mk (.tag "main") (some []) cs) = true
  unfold mixedStampElem
  rw [Bool.and_eq_true]
  exact ⟨rfl, stampedKids_mixed σ cs hst⟩

/-! Claim theorems.  One theorem per claim of the specification, each with
its witness or counterexample. -/

/-- fwdEnv interprets component 0 as `C = () => <Wrapper><span/></Wrapper>`
and component 1 as the child-forwarding wrapper
`Wrapper = ({children}) => <main>{children}</main>` — the standard slotting
pattern, with no component carrying a style or a script. -/
def fwdEnv : Env :=
  ⟨fun fid _ cs =>
      match fid with
      | 0 => .mk (.comp 1) (some []) (.elem (jsx (.tag "span") []))
      | _ => .mk (.tag "main") (some []) cs,
    fun _ => none, fun _ => none⟩

/-- fwdEnv_noNewStamps: the slotting pattern invents no stamps — C
synthesizes a stamp-free subtree, Wrapper only re-embeds the children it
received — so fwdEnv lies inside the class the sharing theorem covers. -/
theorem fwdEnv_noNewStamps : NoNewStamps fwdEnv := by
  intro fid p cs σ hσ hst
  cases fid with
  | zero => rfl
  | succ k =>
      show mixedStampElem σ (.mk (.tag "main") (some []) cs) = true
      unfold mixedStampElem
      rw [Bool.and_eq_true]
      exact ⟨rfl, stampedKids_mixed σ cs hst⟩

/-- fwdNode is the tree `resolve(construct(C, {}))` produces under fwdEnv:
C's node carries its token, Wrapper's node and the `main` it synthesizes
carry Wrapper's token, and the slotted `span` — authored in C's body and
stamped there before Wrapper ever ran — keeps C's token although it sits
below Wrapper's boundary in the resolved tree. -/
def fwdNode : Node :=
  .virtual (.node (.virtual (.node (.intrinsic (some (.tag "main"))
        (.node (.intrinsic (some (.tag "span")) .absent
          [("__scope", .str (freshTok 0))] (.str (freshTok 0))))
        [("__scope", .str (freshTok 1))] (.str (freshTok 1))))
      [("__scope", .str (freshTok 1))] none none (.str (freshTok 1))))
    [("__scope", .str (freshTok 0))] none none (.str (freshTok 0))

/-- Counterexample to claim C1: the invariant "every resolved node's scope
is inherited from the nearest ancestor component boundary" fails on the
ordinary child-forwarding pattern.  Under fwdEnv, `resolve(construct(C,{}))`
yields fwdNode, in which the slotted `span` carries C's token while its
nearest boundary in the resolved tree is Wrapper with a different token — so
the nearest-ancestor-boundary characterization (optInheritP) is false on a
reachable output of an authored tree. -/
theorem claim_C1_counterexample :
    render fwdEnv 7 0 (.elem (jsx (.comp 0) []))
      = some (some fwdNode, 2,
        .elem (.mk (Ref.comp 0) (some [("__scope", .str (freshTok 0))]) .absent)) ∧
    ¬ optInheritP "" (some fwdNode) := by
  refine ⟨rfl, ?_⟩
  intro h
  simp only [optInheritP, fwdNode, nodeInheritP, kidsInheritP] at h
  obtain ⟨t, -, -, -, u, hu, -, -, -, -, hbad, -, -⟩ := h
  injection hu with hu
  injection hbad with hbad
  rw [← hu] at hbad
  exact absurd hbad (by decide)

/-- Claim C1 (amended): every resolved node that resolve produces carries
exactly one scope value under the `__scope` key of its props, equal to the
node's `scope` field — both set together when the node's props are built
(`{__scope: "", ...element.props}`) and never rewritten afterwards; a
component-boundary node always carries the token freshly allocated for it at
that instant (even replacing a stamp the builder element already had); an
intrinsic or Fragment element never stamped by any boundary resolves with
the empty string.  The token of a non-boundary node is the stamp propagated
to it when its authoring boundary resolved, which — as the counterexample
shows for children slotted through a forwarding component — need not be the
token of the nearest boundary above it in the resolved tree. -/
theorem claim_C1_amended_scope_once :
    (∀ env fuel gen c res gen2 ca,
        render env fuel gen c = some (res, gen2, ca) → optScopeConsistent res) ∧
    (∀ env fuel gen fid props ch n gen2 ca,
        render env fuel gen (.elem (.mk (.comp fid) props ch)) = some (some n, gen2, ca) →
        ∃ kids nprops st scr, n = .virtual kids nprops st scr (.str (freshTok gen))) ∧
    (∀ env fuel gen t props ch n gen2 ca,
        lookupProp (props.getD []) "__scope" = none →
        render env fuel gen (.elem (.mk (.tag t) props ch)) = some (some n, gen2, ca) →
        ∃ kids nprops, n = .intrinsic (some (.tag t)) kids nprops (.str "")) ∧
    (∀ env fuel gen props ch n gen2 ca,
        lookupProp (props.getD []) "__scope" = none →
        render env fuel gen (.elem (.mk Ref.fragment props ch)) = some (some n, gen2, ca) →
        ∃ kids nprops, n = .virtual kids nprops none none (.str "")) :=
  ⟨fun env fuel gen c res gen2 ca hr => render_consistAux env fuel gen c res gen2 ca hr,
   fun env fuel gen fid props ch n gen2 ca hr =>
     render_comp_fresh env fuel gen fid props ch n gen2 ca hr,
   fun env fuel gen t props ch n gen2 ca h0 hr =>
     render_tag_default env fuel gen t props ch n gen2 ca h0 hr,
   fun env fuel gen props ch n gen2 ca h0 hr =>
     render_fragment_default env fuel gen props ch n gen2 ca h0 hr⟩

/-- c1Input is the concrete tree of C1's witness: a div wrapping a component
child. -/
def c1Input : Element :=
  jsx (.tag "div") [("children", PVal.child (.elem (jsx (.comp 0) [])))]

/-- c1Res is the node c1Input resolves to under env0. -/
def c1Res : Node :=
  .intrinsic (some (.tag "div"))
    (.node (.virtual (.node (.intrinsic (some (.tag "p")) .absent
        [("__scope", .str (freshTok 0))] (.str (freshTok 0))))
      [("__scope", .str (freshTok 0))] none none (.str (freshTok 0))))
    [("__scope", .str "")] (.str "")

/-- c1After is the state of c1Input after the resolution pass stamped it. -/
def c1After : Children :=
  .elem (.mk (.tag "div") (some [])
    (.elem (.mk (Ref.comp 0) (some [("__scope", .str (freshTok 0))]) .absent)))

/-- Witness for the amended C1: the scope-consistency half evaluated on a
concrete div wrapping a component child, and the fresh-token half evaluated
on a concrete component element. -/
theorem claim_C1_amended_scope_once_witness :
    optScopeConsistent (some c1Res) ∧
    (∃ kids nprops st scr,
      Node.virtual (.node (.intrinsic (some (.tag "p")) .absent
          [("__scope", .str (freshTok 0))] (.str (freshTok 0))))
        [("__scope", .str (freshTok 0))] none none (.str (freshTok 0))
        = .virtual kids nprops st scr (.str (freshTok 0))) :=
  ⟨claim_C1_amended_scope_once.1 env0 5 0 (.elem c1Input) (some c1Res) 1 c1After rfl,
   claim_C1_amended_scope_once.2.1 env0 3 0 0 (some []) .absent _ 1
     (.elem (.mk (Ref.comp 0) (some [("__scope", .str (freshTok 0))]) .absent)) rfl⟩

/-- Claim C2: for a styleless component C — any component id whose `style`
property is absent, in an environment whose components invent no scope
stamps of their own (NoNewStamps, which child-forwarding wrappers satisfy) —
resolving `construct(C, {})` produces a Virtual node carrying the one token
allocated at that instant, and every descendant reached without crossing a
further component boundary carries that same token (sharesKids); and,
concretely, the styleless wrapper `Layout` around an intrinsic `h1` resolves
so that the `h1` node's scope (and the `main` node's between them) equals
Layout's own allocated token. -/
theorem claim_C2_component_scope_sharing :
    (∀ env fid fuel gen res gen2 ca, NoNewStamps env → env.style fid = none →
      render env fuel gen (.elem (jsx (.comp fid) [])) = some (some res, gen2, ca) →
      ∃ ch, res = .virtual ch [("__scope", .str (freshTok gen))] none (env.script fid)
          (.str (freshTok gen)) ∧
        sharesKids (freshTok gen) ch) ∧
    render layoutEnv 9 0 (.elem (jsx (.comp 0) [("children",
        PVal.child (.elem (jsx (.tag "h1") [("children", PVal.str "Hello")])))]))
      = some (some (.virtual
          (.node (.intrinsic (some (.tag "main"))
            (.node (.intrinsic (some (.tag "h1")) (.str "Hello")
              [("__scope", .str (freshTok 0))] (.str (freshTok 0))))
            [("__scope", .str (freshTok 0))] (.str (freshTok 0))))
          [("__scope", .str (freshTok 0))] none none (.str (freshTok 0))), 1,
        .elem (.mk (Ref.comp 0) (some [("__scope", .str (freshTok 0))])
          (.elem (.mk (.tag "h1") (some [("__scope", .str (freshTok 0))])
            (.str "Hello"))))) := by
  constructor
  · intro env fid fuel gen res gen2 ca hN hstyle hr
    match fuel with
    | 0 => simp [render] at hr
    | fuel + 1 =>
      rw [show jsx (.comp fid) [] = Element.mk (.comp fid) (some []) .absent from rfl]
        at hr
      unfold render at hr
      dsimp only at hr
      simp only [applyScope, scopeTruthy, lookupProp, setKey, applyScopeChildren,
        Option.getD, withDefaultScope, scopeOf, String.reduceEq, reduceIte] at hr
      rw [hstyle] at hr
      dsimp only at hr
      cases hI : render env fuel (gen + 1)
          (.elem (applyScope (env.body fid [("__scope", .str (freshTok gen))] .absent)
            (freshTok gen))) with
      | none => rw [hI] at hr; simp at hr
      | some out =>
          rw [hI] at hr
          obtain ⟨res', gen2', ca'⟩ := out
          simp only [Option.some.injEq, Prod.mk.injEq] at hr
          have hm : mixedStampElem (freshTok gen)
              (env.body fid [("__scope", .str (freshTok gen))] .absent) = true :=
            hN fid _ .absent (freshTok gen) (freshTok_ne_empty gen) rfl
          have hstamp : stampedElem (some (freshTok gen))
              (applyScope (env.body fid [("__scope", .str (freshTok gen))] .absent)
                (freshTok gen)) = true :=
            applyScope_stamp_mixed _ (freshTok_ne_empty gen) _ hm
          have hkids := render_sharesAux env hN fuel (freshTok gen) (gen + 1) _
            res' gen2' ca' (freshTok_ne_empty gen) hstamp hI
          cases res' with
          | none =>
              refine ⟨.absent, hr.1.symm, ?_⟩
              unfold sharesKids; trivial
          | some n =>
              refine ⟨.node n, hr.1.symm, ?_⟩
              unfold sharesKids
              unfold optShares at hkids
              exact hkids
  · rfl

/-- Witness for C2: the general half instantiated at the constant
environment — the resolved component node carries the freshly allocated
token and its single intrinsic descendant shares it. -/
theorem claim_C2_component_scope_sharing_witness :
    ∃ ch,
      Node.virtual (.node (.intrinsic (some (.tag "p")) .absent
          [("__scope", .str (freshTok 0))] (.str (freshTok 0))))
        [("__scope", .str (freshTok 0))] none none (.str (freshTok 0))
        = .virtual ch [("__scope", .str (freshTok 0))] none (env0.script 0)
          (.str (freshTok 0)) ∧
      sharesKids (freshTok 0) ch :=
  claim_C2_component_scope_sharing.1 env0 0 4 0 _ 1 _ (fun _ _ _ _ _ _ => rfl) rfl rfl

/-- Claim C3: resolving a Fragment element with children [A, B] yields a
Virtual node whose scope is the inherited value read off its own props (the
fresh token drawn at that step is discarded, never attached), whose children
are the element-wise resolutions of A and B with falsy results (in
particular absent ones) dropped, and which carries no style and no
behavior. -/
theorem claim_C3_fragment_transparent (env : Env) (fuel gen : Nat) (p : Props)
    (A B : Children) (outs : List RChildren) (gen2 : Nat) (ca : List Children)
    (hL : renderChildrenList env fuel (gen + 1) [A, B] = some (outs, gen2, ca)) :
    render env (fuel + 2) gen (.elem (.mk Ref.fragment (some p) (.list [A, B])))
      = some (some (.virtual (.list (outs.filter rtruthy)) (withDefaultScope p)
          none none (scopeOf p)), gen2, .elem (.mk Ref.fragment (some p) (.list ca))) := by
  unfold render
  dsimp only
  unfold renderChildren
  rw [hL]
  rfl

/-- Witness for C3: a Fragment wrapping an intrinsic `li` and an absent
child resolves to a Virtual node with scope `""`, the `li` resolution kept
and the absent child dropped. -/
theorem claim_C3_fragment_transparent_witness :
    render env0 6 0 (.elem (.mk Ref.fragment (some [])
        (.list [.elem (jsx (.tag "li") []), .absent])))
      = some (some (.virtual
          (.list ([RChildren.node (.intrinsic (some (.tag "li")) .absent
            [("__scope", .str "")] (.str "")), RChildren.absent].filter rtruthy))
          (withDefaultScope []) none none (scopeOf [])), 1,
        .elem (.mk Ref.fragment (some [])
          (.list [.elem (.mk (.tag "li") (some []) .absent), .absent]))) :=
  claim_C3_fragment_transparent env0 4 0 []
    (.elem (jsx (.tag "li") [])) .absent
    [.node (.intrinsic (some (.tag "li")) .absent [("__scope", .str "")] (.str "")),
      .absent] 1
    [.elem (.mk (.tag "li") (some []) .absent), .absent] rfl

/-- Claim C4: for every property bag p and every intrinsic tag t, resolving
`construct(t, p)` yields an intrinsic node whose tag is t and whose children
are the recursive resolution of the `children` entry of p; the node's props
are p minus `children` with the default scope entry added. -/
theorem claim_C4_intrinsic_tag_children (env : Env) (fuel gen : Nat) (t : String)
    (p : Props) (chOut : RChildren) (gen2 : Nat) (ca : Children)
    (hC : renderChildren env fuel gen (childrenVal (lookupProp p "children"))
      = some (chOut, gen2, ca)) :
    render env (fuel + 1) gen (.elem (jsx (.tag t) p))
      = some (some (.intrinsic (some (.tag t)) chOut
          (withDefaultScope (eraseKey p "children")) (scopeOf (eraseKey p "children"))),
        gen2, .elem (.mk (.tag t) (some (eraseKey p "children")) ca)) := by
  show render env (fuel + 1) gen (.elem (.mk (.tag t) (some (eraseKey p "children"))
    (childrenVal (lookupProp p "children")))) = _
  unfold render
  dsimp only
  rw [hC]
  rfl

/-- Witness for C4: a div with a text child and an extra prop resolves to an
intrinsic div around that text. -/
theorem claim_C4_intrinsic_tag_children_witness :
    render env0 2 0 (.elem (jsx (.tag "div")
        [("children", PVal.str "x"), ("id", PVal.str "m")]))
      = some (some (.intrinsic (some (.tag "div")) (.str "x")
          (withDefaultScope (eraseKey [("children", PVal.str "x"), ("id", PVal.str "m")]
            "children"))
          (scopeOf (eraseKey [("children", PVal.str "x"), ("id", PVal.str "m")]
            "children"))),
        0, .elem (.mk (.tag "div")
          (some (eraseKey [("children", PVal.str "x"), ("id", PVal.str "m")] "children"))
          (.str "x"))) :=
  claim_C4_intrinsic_tag_children env0 1 0 "div"
    [("children", PVal.str "x"), ("id", PVal.str "m")] (.str "x") 0 (.str "x") rfl

/-- Counterexample to claim C5: resolving the construct of a Fragment with
an empty child sequence does not return absent — it returns a Virtual node
with an empty children list (the early empty-sequence check looks at the
value handed to resolve, not at the element's children). -/
theorem claim_C5_counterexample :
    render env0 3 0 (.elem (jsx .fragment [("children", PVal.child (.list []))]))
      = some (some (.virtual (.list []) [("__scope", .str "")] none none (.str "")), 1,
        .elem (.mk Ref.fragment (some []) (.list []))) ∧
    (some (Node.virtual (.list []) [("__scope", .str "")] none none (.str ""))
      : Option Node) ≠ none :=
  ⟨rfl, fun h => Option.noConfusion h⟩

/-- Claim C5 (amended): resolve of an absent input is absent, and resolve of
an empty child sequence handed to it directly is absent; but resolving the
construct of a Fragment whose children are the empty sequence is not absent:
it yields a Virtual node with an empty children list, no style, no behavior
and scope `""`, and it consumes one allocator token. -/
theorem claim_C5_amended_absent (env : Env) (fuel gen : Nat) :
    render env (fuel + 1) gen .absent = some (none, gen, .absent) ∧
    render env (fuel + 1) gen (.list []) = some (none, gen, .list []) ∧
    render env (fuel + 3) gen (.elem (jsx .fragment [("children", PVal.child (.list []))]))
      = some (some (.virtual (.list []) [("__scope", .str "")] none none (.str "")),
        gen + 1, .elem (.mk Ref.fragment (some []) (.list []))) := by
  refine ⟨rfl, rfl, ?_⟩
  show render env (fuel + 3) gen (.elem (.mk Ref.fragment (some []) (.list []))) = _
  unfold render
  dsimp only
  unfold renderChildren renderChildrenList
  rfl

/-- Counterexample to claim C6: construct performs no class-alias
normalization — a props bag carrying both `className` and `class` passes
through with both keys untouched, neither removed nor concatenated. -/
theorem claim_C6_counterexample :
    jsx (.tag "div") [("className", PVal.str "a"), ("class", PVal.str "b")]
      = .mk (.tag "div") (some [("className", PVal.str "a"), ("class", PVal.str "b")])
        .absent ∧
    lookupProp [("className", PVal.str "a"), ("class", PVal.str "b")] "className"
      = some (.str "a") ∧
    lookupProp [("className", PVal.str "a"), ("class", PVal.str "b")] "class"
      = some (.str "b") :=
  ⟨rfl, rfl, rfl⟩

/-- Claim C6 (amended): construct extracts the `children` key out of props
and passes every other key through unchanged — no class-alias normalization
takes place; it always succeeds and, as a pure function, has no side
effects. -/
theorem claim_C6_amended_construct (r : Ref) (p : Props) (k : String)
    (hk : k ≠ "children") :
    jsx r p = .mk r (some (eraseKey p "children"))
        (childrenVal (lookupProp p "children")) ∧
    lookupProp (eraseKey p "children") k = lookupProp p k ∧
    lookupProp (eraseKey p "children") "children" = none :=
  ⟨rfl, lookupProp_eraseKey_other p k "children" hk, lookupProp_eraseKey_self p "children"⟩

/-- Witness for the amended C6 at a concrete bag with an `id` key and a
`children` key. -/
theorem claim_C6_amended_construct_witness :
    jsx (.tag "a") [("id", PVal.str "x"), ("children", PVal.str "c")]
      = .mk (.tag "a")
        (some (eraseKey [("id", PVal.str "x"), ("children", PVal.str "c")] "children"))
        (childrenVal (lookupProp [("id", PVal.str "x"), ("children", PVal.str "c")]
          "children")) ∧
    lookupProp (eraseKey [("id", PVal.str "x"), ("children", PVal.str "c")] "children")
        "id"
      = lookupProp [("id", PVal.str "x"), ("children", PVal.str "c")] "id" ∧
    lookupProp (eraseKey [("id", PVal.str "x"), ("children", PVal.str "c")] "children")
        "children" = none :=
  claim_C6_amended_construct (.tag "a")
    [("id", PVal.str "x"), ("children", PVal.str "c")] "id" (by decide)

/-- Counterexample to claim C7: a reference that is neither a tag name nor
callable is accepted by construct — which wraps it without validation — and
resolve silently coerces it into an intrinsic node carrying it; no
InvalidElement failure exists at construct time or later (the runtime
declares no error path at all). -/
theorem claim_C7_counterexample :
    jsx .invalid [] = .mk Ref.invalid (some []) .absent ∧
    render env0 2 0 (.elem (jsx .invalid []))
      = some (some (.intrinsic (some .invalid) .absent [("__scope", .str "")] (.str "")),
        0, .elem (.mk Ref.invalid (some []) .absent)) :=
  ⟨rfl, rfl⟩

/-- Claim C7 (amended): construct never validates its reference, and resolve
treats any reference that is not a function value as an intrinsic tag: an
invalid reference is silently coerced into an intrinsic node that carries it,
with its children resolved as usual. -/
theorem claim_C7_amended_invalid_coerced (env : Env) (fuel gen : Nat) (p : Props)
    (chOut : RChildren) (gen2 : Nat) (ca : Children)
    (hC : renderChildren env fuel gen (childrenVal (lookupProp p "children"))
      = some (chOut, gen2, ca)) :
    render env (fuel + 1) gen (.elem (jsx .invalid p))
      = some (some (.intrinsic (some .invalid) chOut
          (withDefaultScope (eraseKey p "children")) (scopeOf (eraseKey p "children"))),
        gen2, .elem (.mk Ref.invalid (some (eraseKey p "children")) ca)) := by
  show render env (fuel + 1) gen (.elem (.mk Ref.invalid (some (eraseKey p "children"))
    (childrenVal (lookupProp p "children")))) = _
  unfold render
  dsimp only
  rw [hC]
  rfl

/-- Witness for the amended C7 at an invalid reference with a text child. -/
theorem claim_C7_amended_invalid_coerced_witness :
    render env0 2 0 (.elem (jsx .invalid [("children", PVal.str "t")]))
      = some (some (.intrinsic (some .invalid) (.str "t")
          (withDefaultScope (eraseKey [("children", PVal.str "t")] "children"))
          (scopeOf (eraseKey [("children", PVal.str "t")] "children"))),
        0, .elem (.mk Ref.invalid (some (eraseKey [("children", PVal.str "t")] "children"))
          (.str "t"))) :=
  claim_C7_amended_invalid_coerced env0 1 0 [("children", PVal.str "t")]
    (.str "t") 0 (.str "t") rfl

/-- Counterexample to claim C8: a BuilderNode is not left intact by resolve —
resolving a component element writes the freshly allocated scope token into
the element's props, so the builder tree after resolve differs from the tree
handed in. -/
theorem claim_C8_counterexample :
    render env0 3 0 (.elem (jsx (.comp 0) []))
      = some (some (.virtual (.node (.intrinsic (some (.tag "p")) .absent
            [("__scope", .str (freshTok 0))] (.str (freshTok 0))))
          [("__scope", .str (freshTok 0))] none none (.str (freshTok 0))), 1,
        .elem (.mk (Ref.comp 0) (some [("__scope", .str (freshTok 0))]) .absent)) ∧
    Children.elem (.mk (Ref.comp 0) (some [("__scope", .str (freshTok 0))]) .absent)
      ≠ .elem (jsx (.comp 0) []) := by
  refine ⟨rfl, fun h => ?_⟩
  simp [jsx, eraseKey, childrenVal, lookupProp] at h

/-- Claim C8 (amended): the builder tree is not immutable — resolve writes
the engine-internal `__scope` key into props objects of the tree it is
given — but that is the only change: the updated input handed back has the
same references, the same children structure and the same props apart from
the `__scope` entries. -/
theorem claim_C8_amended_only_scope_written (env : Env) (fuel gen : Nat) (c : Children)
    (res : Option Node) (gen2 : Nat) (ca : Children)
    (hr : render env fuel gen c = some (res, gen2, ca)) :
    stripKids ca = stripKids c :=
  render_stripAux env fuel gen c res gen2 ca hr

/-- Witness for the amended C8: the mutated component element of the
counterexample has the same scope-free skeleton as the element handed in. -/
theorem claim_C8_amended_only_scope_written_witness :
    stripKids (.elem (.mk (Ref.comp 0) (some [("__scope", .str (freshTok 0))]) .absent))
      = stripKids (.elem (jsx (.comp 0) [])) :=
  claim_C8_amended_only_scope_written env0 3 0 (.elem (jsx (.comp 0) []))
    (some (.virtual (.node (.intrinsic (some (.tag "p")) .absent
        [("__scope", .str (freshTok 0))] (.str (freshTok 0))))
      [("__scope", .str (freshTok 0))] none none (.str (freshTok 0)))) 1
    (.elem (.mk (Ref.comp 0) (some [("__scope", .str (freshTok 0))]) .absent)) rfl

/-- Counterexample to claim C9: the hydration walker consults no execution
context — it has no notion of one — and unconditionally invokes the
behaviors it finds; run anywhere, including a non-browser context, it
performs an invocation rather than refusing. -/
theorem claim_C9_counterexample :
    runScript (.virtual .absent [] none (some 7) (.str "")) = [7] ∧
    ([7] : List Nat) ≠ [] :=
  ⟨rfl, fun h => List.noConfusion h⟩

/-- Claim C9 (amended): runScript contains no environment check and never
refuses: wherever it runs it performs its pre-order traversal — the root's
behavior, when present, is invoked before anything below it, and every
invoked behavior is one carried by a virtual node of the tree. -/
theorem claim_C9_amended_walker_unconditional :
    (∀ ch props st sid sc,
      runScript (.virtual ch props st (some sid) sc) = sid :: runScriptKids ch) ∧
    (∀ (n : Node) (s : Nat), s ∈ runScript n → s ∈ scriptIds n) :=
  ⟨fun _ _ _ _ _ => rfl, runScript_subset_scriptIds⟩

/-- Witness for the amended C9: the invoked behavior of the counterexample
node is among the behaviors the tree carries. -/
theorem claim_C9_amended_walker_unconditional_witness :
    (7 : Nat) ∈ scriptIds (.virtual .absent [] none (some 7) (.str "")) :=
  claim_C9_amended_walker_unconditional.2 (.virtual .absent [] none (some 7) (.str "")) 7
    (by simp [runScript, runScriptKids])

/-- Claim C10: when a child sequence is resolved, every entry whose
resolution is falsy is removed: the resolved children list holds only truthy
entries, so neither an absent resolution nor an empty-string text child ever
appears in it. -/
theorem claim_C10_falsy_children_dropped (env : Env) (fuel gen : Nat)
    (cs : List Children) (out : RChildren) (gen2 : Nat) (ca : Children)
    (hr : renderChildren env (fuel + 1) gen (.list cs) = some (out, gen2, ca)) :
    ∃ rs, out = .list rs ∧ rs.all rtruthy = true ∧
      RChildren.str "" ∉ rs ∧ RChildren.absent ∉ rs := by
  unfold renderChildren at hr
  cases hL : renderChildrenList env fuel gen cs with
  | none => rw [hL] at hr; simp at hr
  | some o =>
      rw [hL] at hr
      obtain ⟨outs, gen2', csAfter⟩ := o
      simp only [Option.some.injEq, Prod.mk.injEq] at hr
      refine ⟨outs.filter rtruthy, hr.1.symm, ?_, ?_, ?_⟩
      · rw [List.all_eq_true]
        intro x hx
        exact List.of_mem_filter hx
      · intro hx
        have h := List.of_mem_filter hx
        simp [rtruthy] at h
      · intro hx
        have h := List.of_mem_filter hx
        simp [rtruthy] at h

/-- Witness for C10: a sequence holding an empty-string child, a text child
and an absent child resolves to a list holding only the text child. -/
theorem claim_C10_falsy_children_dropped_witness :
    ∃ rs, RChildren.list [RChildren.str "ok"] = .list rs ∧ rs.all rtruthy = true ∧
      RChildren.str "" ∉ rs ∧ RChildren.absent ∉ rs :=
  claim_C10_falsy_children_dropped env0 4 0 [.str "", .str "ok", .absent]
    (.list [.str "ok"]) 0 (.list [.str "", .str "ok", .absent]) rfl

end Areum
